import Mathlib

/-!
Verification of the content-resolution pipeline of the
`trasladar_bhaktiyoga_web` static-site migrator.

The Python sources (`slugify_pages.py`, `assets_copy.py`, `linker.py`,
`parser.py`, `config.py`) are shallowly embedded below.  Pure string and
`os.path` (POSIX) manipulation is re-implemented on `List Char` so that every
definition is executable inside the kernel; directory walks are modelled as
explicit lists of `(relative-dir, filename)` entries; the filesystem that the
link rewriter consults is modelled as explicit lists of existing paths; Python
dictionaries become insertion-ordered association lists with the usual
"update in place / append if new" semantics.

All definitions are translated from the source code.  The only exceptions,
marked `Modelled from the spec:` in their doc comments, are the external
`python-slugify` library and the ASCII fragment of `urllib.parse.unquote`,
which are not part of the repository.
-/

set_option linter.unusedVariables false

namespace Trasladar

/-! ### Character classes -/

/-- Characters matched by the regex class `[a-f0-9]` used for Notion ids. -/
def isHexLower (c : Char) : Bool :=
  (('a' ≤ c) && (c ≤ 'f')) || (('0' ≤ c) && (c ≤ '9'))

/-- Characters matched by Python's `\s` (ASCII fragment). -/
def isPySpace (c : Char) : Bool :=
  c = ' ' || c = '\t' || c = '\n' || c = '\r' || c = '\x0b' || c = '\x0c'

/-- Value of a hexadecimal digit character, either case (as accepted by
`urllib.parse.unquote`). -/
def hexVal (c : Char) : Option Nat :=
  if (('0' ≤ c) && (c ≤ '9')) then some (c.toNat - 48)
  else if (('a' ≤ c) && (c ≤ 'f')) then some (c.toNat - 87)
  else if (('A' ≤ c) && (c ≤ 'F')) then some (c.toNat - 55)
  else none

/-! ### Generic string helpers (Python `str` methods) -/

/-- Modelled from the spec: `urllib.parse.unquote` restricted to ASCII percent
escapes — each valid `%XX` pair becomes the character with code `XX`, anything
else is copied verbatim.  (The library function additionally reassembles
multi-byte UTF-8 escape sequences; the references this pipeline rewrites only
use ASCII escapes such as `%20`.) -/
def unquoteL : List Char → List Char
  | [] => []
  | '%' :: a :: b :: rest =>
    match hexVal a, hexVal b with
    | some x, some y => Char.ofNat (16 * x + y) :: unquoteL rest
    | _, _ => '%' :: unquoteL (a :: b :: rest)
  | c :: rest => c :: unquoteL rest

def unquote (s : String) : String := String.mk (unquoteL s.data)

/-- Python `str.strip()` on a character list. -/
def pyStripL (l : List Char) : List Char :=
  ((l.dropWhile isPySpace).reverse.dropWhile isPySpace).reverse

/-- Python `str.strip()`. -/
def pyStrip (s : String) : String := String.mk (pyStripL s.data)

/-- Python `str.lower()` (ASCII fragment, matching the file extensions it is
applied to in the sources). -/
def asciiLower (s : String) : String := String.mk (s.data.map Char.toLower)

/-- Python `str.startswith`. -/
def strStarts (s pat : String) : Bool := pat.data.isPrefixOf s.data

/-- Python `str.endswith`. -/
def strEnds (s pat : String) : Bool := pat.data.reverse.isPrefixOf s.data.reverse

/-- Contiguous-substring search on character lists (Python's `in`). -/
def hasSubL (pat : List Char) : List Char → Bool
  | [] => pat.isEmpty
  | c :: rest => pat.isPrefixOf (c :: rest) || hasSubL pat rest

/-- Python `pat in s` (substring containment). -/
def strHas (s pat : String) : Bool := hasSubL pat.data s.data

/-- Python `str.replace` worker: replaces non-overlapping occurrences left to
right.  The fuel argument is the length of the scanned list, which suffices
because a nonempty pattern consumes at least one character per hit. -/
def replaceF (pat rep : List Char) : Nat → List Char → List Char
  | _, [] => []
  | 0, l => l
  | f + 1, c :: rest =>
    if pat.isPrefixOf (c :: rest) then rep ++ replaceF pat rep f (rest.drop (pat.length - 1))
    else c :: replaceF pat rep f rest

/-- Python `s.replace(pat, rep)` (all sites in the sources use a nonempty
pattern; an empty pattern is returned unchanged). -/
def strReplace (s pat rep : String) : String :=
  if pat.data = [] then s else String.mk (replaceF pat.data rep.data s.data.length s.data)

/-- Python `str.split(sep)` on character lists (keeps empty groups, like the
Python method with an explicit separator). -/
def splitCharL (sep : Char) : List Char → List (List Char)
  | [] => [[]]
  | c :: rest =>
    match splitCharL sep rest with
    | [] => [[]]
    | g :: gs => if c = sep then [] :: g :: gs else (c :: g) :: gs

/-- Python `sep.join(...)` on character lists. -/
def joinCharL (sep : Char) : List (List Char) → List Char
  | [] => []
  | [g] => g
  | g :: g2 :: gs => g ++ sep :: joinCharL sep (g2 :: gs)

/-! ### POSIX path operations (`os.path` / `posixpath`) -/

/-- `posixpath.basename`: everything after the last `/`. -/
def basenameL (l : List Char) : List Char :=
  (l.reverse.takeWhile (fun c => c ≠ '/')).reverse

def basenameS (s : String) : String := String.mk (basenameL s.data)

/-- `posixpath.dirname`: everything up to the last `/`, with trailing slashes
stripped unless the result is all slashes. -/
def dirnameS (s : String) : String :=
  let l := s.data
  let head := (l.reverse.dropWhile (fun c => c ≠ '/')).reverse
  if head.isEmpty then ""
  else if head.all (fun c => c = '/') then String.mk head
  else String.mk ((head.reverse.dropWhile (fun c => c = '/')).reverse)

/-- Two-argument `posixpath.join`. -/
def pathJoin (a b : String) : String :=
  if strStarts b "/" then b
  else if a = "" then b
  else if strEnds a "/" then a ++ b
  else a ++ "/" ++ b

/-- Stack phase of `posixpath.normpath`: processes components left to right,
resolving `.` and `..`.  Returns the stack in reverse order. -/
def normStack (slashes : Nat) : List (List Char) → List (List Char) → List (List Char)
  | stk, [] => stk
  | stk, c :: cs =>
    if c = [] ∨ c = ['.'] then normStack slashes stk cs
    else if c ≠ ['.', '.'] then normStack slashes (c :: stk) cs
    else
      match stk with
      | [] => if slashes = 0 then normStack slashes [['.', '.']] cs else normStack slashes [] cs
      | t :: ts =>
        if t = ['.', '.'] then normStack slashes (['.', '.'] :: t :: ts) cs
        else normStack slashes ts cs

/-- `posixpath.normpath`. -/
def normpath (s : String) : String :=
  if s = "" then "." else
  let slashes : Nat :=
    if strStarts s "//" && !(strStarts s "///") then 2
    else if strStarts s "/" then 1 else 0
  let stack := normStack slashes [] (splitCharL '/' s.data)
  let out := List.replicate slashes '/' ++ joinCharL '/' stack.reverse
  if out = [] then "." else String.mk out

/-- Longest common leading run of two component lists. -/
def dropCommon : List (List Char) → List (List Char) → List (List Char) × List (List Char)
  | a :: as, b :: bs => if a = b then dropCommon as bs else (a :: as, b :: bs)
  | as, bs => (as, bs)

/-- `posixpath.relpath(path, start)` for the absolute paths this pipeline uses
(every path handed to `os.path.relpath` in the sources is built from the
absolute configuration roots, so `abspath` reduces to `normpath`). -/
def relpathAbs (path start : String) : String :=
  let pl := (splitCharL '/' (normpath path).data).filter (fun g => g ≠ [])
  let sl := (splitCharL '/' (normpath start).data).filter (fun g => g ≠ [])
  let rests := dropCommon sl pl
  let rel := List.replicate rests.1.length ['.', '.'] ++ rests.2
  if rel = [] then "." else String.mk (joinCharL '/' rel)

/-- `posixpath.splitext` on character lists: splits at the last dot of the
basename unless all characters before it are dots. -/
def splitextL (p : List Char) : List Char × List Char :=
  let base := basenameL p
  let rev := base.reverse
  let extRevLen := (rev.takeWhile (fun c => c ≠ '.')).length
  if extRevLen = rev.length then (p, [])
  else
    let stem := base.take (base.length - extRevLen - 1)
    if stem.all (fun c => c = '.') then (p, [])
    else (p.take (p.length - extRevLen - 1), p.drop (p.length - extRevLen - 1))

/-- `os.path.splitext`. -/
def splitextS (s : String) : String × String :=
  let r := splitextL s.data
  (String.mk r.1, String.mk r.2)

/-! ### Decimal rendering of naturals (for the f-string `f"{name}-{counter}{ext}"`) -/

def digitChar10 (n : Nat) : Char := Char.ofNat (48 + n % 10)

/-- Fuelled most-significant-first decimal digits; any fuel above the value
itself yields the final digit list. -/
def natDigitsF : Nat → Nat → List Char
  | 0, _ => []
  | f + 1, n => if n < 10 then [digitChar10 n] else natDigitsF f (n / 10) ++ [digitChar10 (n % 10)]

def natDigits (n : Nat) : List Char := natDigitsF (n + 1) n

/-- Decimal string of a natural number, as Python's `str`/f-string renders it. -/
def natDecimal (n : Nat) : String := String.mk (natDigits n)

/-! ### The `python-slugify` library -/

/-- Modelled from the spec: the character-level transliteration step of the
external `python-slugify` library — ASCII letters are lowercased, digits kept,
the Spanish accented letters occurring in this site's titles are
accent-stripped, and every other character acts as a word separator
(`none`). -/
def translitChar (c : Char) : Option Char :=
  if (('a' ≤ c) && (c ≤ 'z')) then some c
  else if (('A' ≤ c) && (c ≤ 'Z')) then some c.toLower
  else if (('0' ≤ c) && (c ≤ '9')) then some c
  else if c = 'á' || c = 'Á' || c = 'à' || c = 'À' || c = 'ä' || c = 'Ä' || c = 'â' || c = 'Â' then some 'a'
  else if c = 'é' || c = 'É' || c = 'è' || c = 'È' || c = 'ë' || c = 'Ë' || c = 'ê' || c = 'Ê' then some 'e'
  else if c = 'í' || c = 'Í' || c = 'ì' || c = 'Ì' || c = 'ï' || c = 'Ï' || c = 'î' || c = 'Î' then some 'i'
  else if c = 'ó' || c = 'Ó' || c = 'ò' || c = 'Ò' || c = 'ö' || c = 'Ö' || c = 'ô' || c = 'Ô' then some 'o'
  else if c = 'ú' || c = 'Ú' || c = 'ù' || c = 'Ù' || c = 'ü' || c = 'Ü' || c = 'û' || c = 'Û' then some 'u'
  else if c = 'ñ' || c = 'Ñ' then some 'n'
  else if c = 'ç' || c = 'Ç' then some 'c'
  else none

/-- Groups a transliterated character stream into maximal runs of kept
characters, splitting at separators. -/
def optGroups : List (Option Char) → List (List Char)
  | [] => [[]]
  | o :: os =>
    match optGroups os with
    | [] => [[]]
    | g :: gs =>
      match o with
      | some c => (c :: g) :: gs
      | none => [] :: g :: gs

/-- Modelled from the spec: `slugify(text, lowercase=True, max_length=maxLen)`
from the external `python-slugify` library — "lowercase, accent-stripped,
non-alphanumeric-collapsed-to-hyphen transliteration …, truncated"
(spec §4.1).  `maxLen = 0` means no truncation (the library default used for
the bare `slugify(...)` comparisons in `make_slug`). -/
def slugifyM (s : String) (maxLen : Nat) : String :=
  let words := (optGroups (s.data.map translitChar)).filter (fun g => g ≠ [])
  let joined := joinCharL '-' words
  let cut := if maxLen = 0 then joined else joined.take maxLen
  String.mk ((cut.reverse.dropWhile (fun c => c = '-')).reverse)

/-! ### Insertion-ordered dictionaries (Python `dict`) and sets -/

/-- Association list standing for a Python `dict` with `String` keys and
values; iteration order is list order (Python preserves insertion order). -/
abbrev SMap := List (String × String)

/-- `m[k]` lookup (first matching key). -/
def dget (m : SMap) (k : String) : Option String :=
  (m.find? (fun p => p.1 == k)).map (fun p => p.2)

/-- `k in m`. -/
def dmem (m : SMap) (k : String) : Bool := m.any (fun p => p.1 == k)

/-- `m[k] = v`: updates the first entry with key `k` in place, or appends a
new entry — exactly Python's insertion-order-preserving assignment. -/
def dput : SMap → String → String → SMap
  | [], k, v => [(k, v)]
  | p :: rest, k, v => if p.1 = k then (k, v) :: rest else p :: dput rest k v

/-- The values of a dictionary, in insertion order. -/
def dvals (m : SMap) : List String := m.map (fun p => p.2)

/-- The keys of a dictionary, in insertion order. -/
def dkeys (m : SMap) : List String := m.map (fun p => p.1)

/-- `set.add` on a list model of a Python `set` (membership is all the sources
use, so a duplicate-free list is kept). -/
def addSet (s : List String) (x : String) : List String :=
  if x ∈ s then s else s ++ [x]

/-! ### config.py -/

/-- `SLUG_OVERRIDES` from `config.py` (lines 69–76). -/
def SLUG_OVERRIDES : SMap :=
  [("55e021b5b0194c9ebaba695a74433538", "/estatutos/"),
   ("4de5e2fd65e8460e90aeb8f0a256ecfc", "/contenido/"),
   ("8f04e519bdb746158a24ba0010b813ef", "/libreria/"),
   ("d8a09ede1598464693ac1750b9ba2cce", "/blog/"),
   ("361c82e1b1b7464ab15e16c230a2db53", "/"),
   ("2dbe846ade1b428ca98b39027e796313", "/centros/")]

/-! ### slugify_pages.py — filename-id regexes -/

/-- Match of `NOTION_FILENAME_RE = r'^(.+?)\s+([a-f0-9]{32})\.html$'`
(slugify_pages.py line 10).  The anchored tail forces group 2 to be the last
32 characters before `.html`; the lazy group 1 is everything before the
whitespace run preceding it (nonempty, and — since `.` does not match a
newline — newline-free). -/
def matchNotionFilename (f : String) : Option (String × String) :=
  if strEnds f ".html" then
    let t := f.data.take (f.data.length - 5)
    if 34 ≤ t.length then
      let hex := t.drop (t.length - 32)
      let u := t.take (t.length - 32)
      let wsLen := (u.reverse.takeWhile isPySpace).length
      let title := (u.reverse.dropWhile isPySpace).reverse
      if hex.all isHexLower ∧ wsLen ≠ 0 ∧ title ≠ [] ∧ title.all (fun c => c ≠ '\n') then
        some (String.mk title, String.mk hex)
      else none
    else none
  else none

/-- Match of `NOTION_SHORT_RE = r'^(.+?)\s+([a-f0-9]{4}-[a-f0-9]{4})\.html$'`
(slugify_pages.py line 12). -/
def matchNotionShort (f : String) : Option (String × String) :=
  if strEnds f ".html" then
    let t := f.data.take (f.data.length - 5)
    if 11 ≤ t.length then
      let idc := t.drop (t.length - 9)
      let u := t.take (t.length - 9)
      let wsLen := (u.reverse.takeWhile isPySpace).length
      let title := (u.reverse.dropWhile isPySpace).reverse
      if (idc.take 4).all isHexLower ∧ idc.drop 4 = '-' :: idc.drop 5 ∧
          (idc.drop 5).all isHexLower ∧ wsLen ≠ 0 ∧ title ≠ [] ∧
          title.all (fun c => c ≠ '\n') then
        some (String.mk title, String.mk idc)
      else none
    else none
  else none

/-- `extract_notion_id` (slugify_pages.py lines 15–23): long regex first, then
the short one; group 1 is stripped. -/
def extractNotionId (filename : String) : Option (String × String) :=
  match matchNotionFilename filename with
  | some ti => some (pyStrip ti.1, ti.2)
  | none =>
    match matchNotionShort filename with
    | some ti => some (pyStrip ti.1, ti.2)
    | none => none

/-- `re.sub(r'\s+[a-f0-9]{32}$', '', p)` (slugify_pages.py line 141): drops a
trailing whitespace run followed by a 32-hex id, if present. -/
def stripTrailingHex32 (p : String) : String :=
  let l := p.data
  if 33 ≤ l.length then
    let hex := l.drop (l.length - 32)
    let u := l.take (l.length - 32)
    if hex.all isHexLower ∧ (u.reverse.takeWhile isPySpace).length ≠ 0 then
      String.mk ((u.reverse.dropWhile isPySpace).reverse)
    else p
  else p

/-- Match of `r'^(.+?)\s+[a-f0-9]{32}$'` (slugify_pages.py line 129),
returning group 1. -/
def matchTrailingHex32 (p : String) : Option String :=
  let l := p.data
  if 34 ≤ l.length then
    let hex := l.drop (l.length - 32)
    let u := l.take (l.length - 32)
    let wsLen := (u.reverse.takeWhile isPySpace).length
    let title := (u.reverse.dropWhile isPySpace).reverse
    if hex.all isHexLower ∧ wsLen ≠ 0 ∧ title ≠ [] ∧ title.all (fun c => c ≠ '\n') then
      some (String.mk title)
    else none
  else none

/-! ### slugify_pages.py — make_slug -/

/-- The `section_map` literal of `make_slug` (lines 88–105), in source
order. -/
def sectionMap : SMap :=
  [("Blog", "blog"), ("Contenido", "contenido"), ("Librería", "libreria"),
   ("Eventos", "eventos"), ("Talleres", "talleres"),
   ("Conferencias", "conferencias"), ("Videos", "videos"),
   ("Catálogo", "catalogo"), ("La Casa de Krsna", "la-casa-de-krsna"),
   ("Curso de Bhakti yoga", "curso-de-bhakti-yoga"), ("Revista", "revista"),
   ("Glosario", "glosario"), ("The Book", "prabhupada-now/the-book"),
   ("Passages", "prabhupada-now/passages"), ("About", "prabhupada-now/about"),
   ("Asistencia", "asistencia")]

/-- The `skip_dirs` literal (line 135). -/
def skipDirs : List String := ["untitled", "temas", "categorias", "categorías"]

/-- Lines 110–113: `NOTION_FILENAME_RE.sub(r'\1', p + '.html').replace('.html',
'').strip()`, falling back to `p` when empty. -/
def cleanDirName (p : String) : String :=
  let subbed :=
    match matchNotionFilename (p ++ ".html") with
    | some ti => ti.1
    | none => p ++ ".html"
  let c := pyStrip (strReplace subbed ".html" "")
  if c = "" then p else c

/-- The section-search loop of `make_slug` (lines 108–123): first directory
part whose cleaned name is a key of `section_map`, or whose slug equals the
slug of a key. -/
def sectionScan : List String → Option String
  | [] => none
  | p :: rest =>
    let clean := cleanDirName p
    match dget sectionMap clean with
    | some v => some v
    | none =>
      match sectionMap.find? (fun kv => slugifyM kv.1 0 == slugifyM clean 0) with
      | some kv => some kv.2
      | none => sectionScan rest

/-- `section.split('/')[0]` (line 146). -/
def headSeg (s : String) : String := String.mk ((splitCharL '/' s.data).headD [])

/-- One iteration of the `sub_parts` loop of `make_slug` (lines 138–152).
Note the loop's `continue` runs for every part until the section directory has
been passed, whether or not the current part matched. -/
def subPartsStep (sectionHead baseSlug : String) (st : Bool × List String)
    (p : String) : Bool × List String :=
  let clean := unquote (pyStrip (stripTrailingHex32 p))
  let cleanSlug := slugifyM clean 0
  if ¬ st.1 then
    ((cleanSlug == sectionHead) || dmem sectionMap clean, st.2)
  else if cleanSlug ∈ skipDirs then st
  else if cleanSlug ≠ "" ∧ cleanSlug ≠ baseSlug then (st.1, st.2 ++ [cleanSlug])
  else st

/-- `make_slug(title, rel_dir_path)` (slugify_pages.py lines 65–158). -/
def makeSlug (title relDirPath : String) : String :=
  let title2 := unquote title
  let baseSlug0 := slugifyM title2 60
  let baseSlug := if baseSlug0 = "" then "page" else baseSlug0
  if relDirPath = "." then "/" ++ baseSlug ++ "/"
  else
    let parts := (splitCharL '/' relDirPath.data).map (fun l => unquote (String.mk l))
    let sect :=
      match sectionScan parts with
      | some s => s
      | none =>
        let firstDir := parts.headD ""
        let fd :=
          match matchTrailingHex32 firstDir with
          | some t2 => t2
          | none => firstDir
        slugifyM fd 40
    let subParts := (parts.foldl (subPartsStep (headSeg sect) baseSlug) (false, [])).2
    if subParts ≠ [] then
      "/" ++ sect ++ "/" ++ String.mk (joinCharL '/' (subParts.map String.data)) ++
        "/" ++ baseSlug ++ "/"
    else
      "/" ++ sect ++ "/" ++ baseSlug ++ "/"

/-! ### Directory walks -/

/-- One file yielded by `os.walk(MAPA_DIR)`: `relDir` is
`os.path.relpath(root, MAPA_DIR)` (`"."` at the top level) and `name` the bare
filename.  A walk becomes the list of such entries in visiting order. -/
structure WalkFile where
  relDir : String
  name : String
deriving DecidableEq

/-- `os.path.relpath(os.path.join(root, f), MAPA_DIR)` expressed through the
walk entry. -/
def relKey (relDir f : String) : String :=
  if relDir = "." then f else relDir ++ "/" ++ f

/-- `os.path.basename(root)` expressed through the walk entry (`root` is
`MAPA_DIR` itself at the top level). -/
def parentName (mapaDir relDir : String) : String :=
  if relDir = "." then basenameS mapaDir else basenameS relDir

/-! ### slugify_pages.py — build_slug_map -/

/-- Loop body of `build_slug_map` (slugify_pages.py lines 26–62), walking the
entries in order and threading the three dictionaries. -/
def buildSlugMapGo (mapaDir : String) :
    SMap → SMap → SMap → List WalkFile → SMap × SMap × SMap
  | slugM, fileM, titleM, [] => (slugM, fileM, titleM)
  | slugM, fileM, titleM, e :: rest =>
    if strEnds e.name ".html" then
      match extractNotionId e.name with
      | none => buildSlugMapGo mapaDir slugM fileM titleM rest
      | some ti =>
        let rootPath := if e.relDir = "." then mapaDir else pathJoin mapaDir e.relDir
        let fileM2 := dput fileM ti.2 (pathJoin rootPath e.name)
        let titleM2 := dput titleM ti.2 ti.1
        match dget SLUG_OVERRIDES ti.2 with
        | some s => buildSlugMapGo mapaDir (dput slugM ti.2 s) fileM2 titleM2 rest
        | none =>
          buildSlugMapGo mapaDir (dput slugM ti.2 (makeSlug ti.1 e.relDir)) fileM2 titleM2 rest
    else buildSlugMapGo mapaDir slugM fileM titleM rest

/-- `build_slug_map()`: returns `(slug_map, file_map, title_map)`. -/
def buildSlugMap (mapaDir : String) (tree : List WalkFile) : SMap × SMap × SMap :=
  buildSlugMapGo mapaDir [] [] [] tree

/-! ### Asset resolvers -/

/-- `media_exts` of `build_asset_path_map` (slugify_pages.py line 169). -/
def mediaExtsPages : List String :=
  [".jpg", ".jpeg", ".png", ".gif", ".webp", ".svg", ".pdf", ".mp4", ".mp3"]

/-- `MEDIA_EXTENSIONS` of assets_copy.py (lines 9–12). -/
def MEDIA_EXTENSIONS : List String :=
  [".jpg", ".jpeg", ".png", ".gif", ".webp", ".svg", ".pdf", ".mp4", ".mp3",
   ".m4a", ".ogg", ".wav"]

/-- The shared "clean filename stem" computation:
`slugify(os.path.splitext(f)[0], lowercase=True, max_length=80)` with fallback
`"file"`. -/
def cleanAssetName (fname : String) : String :=
  let c := slugifyM (splitextS fname).1 80
  if c = "" then "file" else c

/-- `build_asset_path_map` loop (slugify_pages.py lines 161–195): collision
handling by parent-directory whose result is *not* rechecked (no counter
loop in this variant). -/
def buildAssetPathMapGo (mapaDir : String) : SMap → List String → List WalkFile → SMap
  | m, _, [] => m
  | m, seen, e :: rest =>
    let ext := asciiLower (splitextS e.name).2
    if ext ∈ mediaExtsPages then
      let cleanName := cleanAssetName e.name ++ ext
      let cleanName2 :=
        if cleanName ∈ seen then
          slugifyM (parentName mapaDir e.relDir) 30 ++ "-" ++ cleanName
        else cleanName
      buildAssetPathMapGo mapaDir (dput m (relKey e.relDir e.name) ("/assets/" ++ cleanName2))
        (addSet seen cleanName2) rest
    else buildAssetPathMapGo mapaDir m seen rest

/-- `build_asset_path_map()` (slugify_pages.py). -/
def buildAssetPathMap (mapaDir : String) (tree : List WalkFile) : SMap :=
  buildAssetPathMapGo mapaDir [] [] tree

/-- The f-string `f"{name_part}-{counter}{ext}"` of assets_copy.py line 140. -/
def candName (namePart ext : String) (i : Nat) : String :=
  namePart ++ "-" ++ natDecimal i ++ ext

/-- The `while clean_name in seen_names` counter loop of `build_asset_map`
(assets_copy.py lines 136–141).  The fuel bound `seen.length + 1` always
suffices (`countLoop_fresh`/`exists_fresh_cand` below), so the fuel-out case
is unreachable. -/
def countLoop (seen : List String) (namePart ext : String) : Nat → Nat → String
  | counter, 0 => candName namePart ext counter
  | counter, f + 1 =>
    if candName namePart ext counter ∈ seen then
      countLoop seen namePart ext (counter + 1) f
    else candName namePart ext counter

/-- Lines 135–141 of assets_copy.py: `base_clean = clean_name; counter = 2;
while clean_name in seen_names: ...`. -/
def resolveDupName (seen : List String) (baseClean ext : String) : String :=
  if baseClean ∈ seen then
    countLoop seen (splitextS baseClean).1 ext 2 (seen.length + 1)
  else baseClean

/-- `build_asset_map` loop (assets_copy.py lines 105–146). -/
def buildAssetMapGo (mapaDir : String) : SMap → List String → List WalkFile → SMap
  | m, _, [] => m
  | m, seen, e :: rest =>
    let ext := asciiLower (splitextS e.name).2
    if ext ∈ MEDIA_EXTENSIONS then
      let cleanName := cleanAssetName e.name ++ ext
      let cleanName2 :=
        if cleanName ∈ seen then
          slugifyM (parentName mapaDir e.relDir) 30 ++ "-" ++ cleanName
        else cleanName
      let finalName := resolveDupName seen cleanName2 ext
      buildAssetMapGo mapaDir (dput m (relKey e.relDir e.name) ("/assets/" ++ finalName))
        (addSet seen finalName) rest
    else buildAssetMapGo mapaDir m seen rest

/-- `build_asset_map()` (assets_copy.py). -/
def buildAssetMap (mapaDir : String) (tree : List WalkFile) : SMap :=
  buildAssetMapGo mapaDir [] [] tree

/-! ### linker.py -/

/-- The configuration-module constants consumed by linker.py
(`MAPA_DIR`, `NOTION_EXPORT_DIR`, `OUTPUT_DIR` — absolute paths built in
config.py lines 5–13). -/
structure LinkCfg where
  mapaDir : String
  exportDir : String
  outputDir : String
deriving DecidableEq

/-- The filesystem state the rewriter touches: the asset map (mutated in
place), the set of files existing in the export tree (consulted by
`os.path.isfile`), and the set of files existing under the output directory
(consulted by `os.path.exists(dest)` and extended by `shutil.copy2`). -/
structure FState where
  assetMap : SMap
  diskFiles : List String
  outFiles : List String
deriving DecidableEq

/-- The filename-only fallback lookup of `_rewrite_asset_src` (linker.py
lines 147–150): first map entry, in insertion order, whose key's basename
matches. -/
def fuzzyMatch (m : SMap) (base : String) : Option String :=
  (m.find? (fun kv => basenameS kv.1 == base)).map (fun kv => kv.2)

/-- `_rewrite_asset_src(src, source_dir, asset_map, mapa_dir)` (linker.py
lines 117–172).  Returns the rewritten reference (`None` = keep) and the
updated state; the out-of-tree branch copies the file at most once and
extends the map. -/
def rewriteAssetSrc (cfg : LinkCfg) (src sourceDir : String) (st : FState) :
    Option String × FState :=
  if strStarts src "data:" then (none, st)
  else if strStarts src "http://" || strStarts src "https://" then
    -- both inner branches of lines 124–128 return None
    (none, st)
  else
    let decoded := unquote src
    let absPath := normpath (pathJoin sourceDir decoded)
    let relToMapa := relpathAbs absPath cfg.mapaDir
    match dget st.assetMap relToMapa with
    | some v => (some v, st)
    | none =>
      match dget st.assetMap (strReplace relToMapa "\\" "/") with
      | some v => (some v, st)
      | none =>
        match fuzzyMatch st.assetMap (basenameS decoded) with
        | some v => (some v, st)
        | none =>
          if strStarts relToMapa ".." ∧ absPath ∈ st.diskFiles then
            if ¬ strStarts (relpathAbs absPath cfg.exportDir) ".." then
              let stemExt := splitextS (basenameS decoded)
              let c0 := slugifyM stemExt.1 80
              let cleanName := (if c0 = "" then "file" else c0) ++ asciiLower stemExt.2
              let cleanUrl := "/assets/" ++ cleanName
              let dest := pathJoin (pathJoin cfg.outputDir "assets") cleanName
              (some cleanUrl,
               { assetMap := dput st.assetMap relToMapa cleanUrl,
                 diskFiles := st.diskFiles,
                 outFiles := if dest ∈ st.outFiles then st.outFiles else st.outFiles ++ [dest] })
            else (none, st)
          else (none, st)

/-- First run of 32 consecutive `[a-f0-9]` characters
(`re.search(r'([a-f0-9]{32})', …)`, leftmost match). -/
def findHex32 : List Char → Option (List Char)
  | [] => none
  | c :: rest =>
    let w := (c :: rest).take 32
    if w.length = 32 ∧ w.all isHexLower then some w else findHex32 rest

/-- Whether a dashed UUID `8-4-4-4-12` starts at the head of the list. -/
def uuidDashedAt (l : List Char) : Bool :=
  decide (36 ≤ l.length) &&
  (l.take 8).all isHexLower && ((l.drop 8).take 1 == ['-']) &&
  ((l.drop 9).take 4).all isHexLower && ((l.drop 13).take 1 == ['-']) &&
  ((l.drop 14).take 4).all isHexLower && ((l.drop 18).take 1 == ['-']) &&
  ((l.drop 19).take 4).all isHexLower && ((l.drop 23).take 12).all isHexLower

/-- Leftmost dashed-UUID match (second `re.search` of
`_extract_notion_id_from_url`). -/
def findUuidDashed : List Char → Option (List Char)
  | [] => none
  | c :: rest =>
    if uuidDashedAt (c :: rest) then some ((c :: rest).take 36) else findUuidDashed rest

/-- `_extract_notion_id_from_url` (linker.py lines 175–190). -/
def extractNotionIdFromUrl (url : String) : Option String :=
  match findHex32 (strReplace url "-" "").data with
  | some run => some (String.mk run)
  | none =>
    match findUuidDashed url.data with
    | some u => some (strReplace (String.mk u) "-" "")
    | none => none

/-- Lines 95–99 / 106–109 of linker.py: slug map first, then the
`SLUG_OVERRIDES` fallback. -/
def hrefIdLookup (slugM : SMap) (nid : String) : Option String :=
  match dget slugM nid with
  | some s => some s
  | none => dget SLUG_OVERRIDES nid

/-- `decoded.rsplit('#', 1)` with the `'#' + anchor` re-prefixing of linker.py
lines 82–85 (identity when no `#` is present). -/
def rsplitHash (s : String) : String × String :=
  if strHas s "#" then
    let groups := splitCharL '#' s.data
    (String.mk (joinCharL '#' groups.dropLast), String.mk ('#' :: groups.getLastD []))
  else (s, "")

/-- `_rewrite_href(href, source_dir, slug_map, asset_map, mapa_dir)`
(linker.py lines 57–114). -/
def rewriteHref (cfg : LinkCfg) (href sourceDir : String) (slugM : SMap) (st : FState) :
    Option String × FState :=
  if strStarts href "#" || strStarts href "javascript:" then (none, st)
  else
    let decoded := unquote href
    if strStarts decoded "http://" || strStarts decoded "https://" then
      if strHas decoded "bhakti.pages.dev" then (some "/", st)
      else if strHas decoded "notion.so" || strHas decoded "notion.site" then
        match (extractNotionIdFromUrl decoded).bind (fun nid => dget slugM nid) with
        | some s => (some s, st)
        | none => (none, st)
      else (none, st)
    else if strEnds decoded ".html" || strHas decoded ".html#" then
      let da := rsplitHash decoded
      match (matchNotionFilename (basenameS (normpath (pathJoin sourceDir da.1)))).bind
          (fun ti => hrefIdLookup slugM ti.2) with
      | some s => (some (s ++ da.2), st)
      | none =>
        match (matchNotionFilename (basenameS da.1)).bind (fun ti => hrefIdLookup slugM ti.2) with
        | some s => (some (s ++ da.2), st)
        | none => (none, st)
    else rewriteAssetSrc cfg href sourceDir st

/-- The references `rewrite_links` visits in one parsed body, in document
order: anchor `href`s, image `src`s, and the `url(...)` occurrences of each
`background-image` style attribute. -/
structure SoupDoc where
  anchors : List String
  imgs : List String
  styleUrls : List (List String)
deriving DecidableEq

/-- Python truthiness of the rewrite result: `if new_href:` replaces the
attribute only for a non-`None`, nonempty string. -/
def applyOpt (old : String) : Option String → String
  | some s => if s = "" then old else s
  | none => old

/-- Rewrites one attribute list in order, threading the state. -/
def rewriteRefList (f : String → FState → Option String × FState) :
    List String → FState → List String × FState
  | [], st => ([], st)
  | s :: rest, st =>
    let r := f s st
    let rs := rewriteRefList f rest r.2
    (applyOpt s r.1 :: rs.1, rs.2)

/-- Rewrites the per-style-attribute url lists in order. -/
def rewriteRefLL (f : String → FState → Option String × FState) :
    List (List String) → FState → List (List String) × FState
  | [], st => ([], st)
  | g :: rest, st =>
    let r := rewriteRefList f g st
    let rs := rewriteRefLL f rest r.2
    (r.1 :: rs.1, rs.2)

/-- `rewrite_links(html_content, source_file_path, slug_map, asset_map,
mapa_dir)` (linker.py lines 13–54) over the reference model: anchors first,
then image sources, then style urls, exactly as the three `find_all` loops
run. -/
def rewriteLinks (cfg : LinkCfg) (doc : SoupDoc) (sourceFilePath : String)
    (slugM : SMap) (st : FState) : SoupDoc × FState :=
  let dir := dirnameS sourceFilePath
  let ra := rewriteRefList (fun h t => rewriteHref cfg h dir slugM t) doc.anchors st
  let ri := rewriteRefList (fun s t => rewriteAssetSrc cfg s dir t) doc.imgs ra.2
  let rs := rewriteRefLL (fun s t => rewriteAssetSrc cfg s dir t) doc.styleUrls ri.2
  (⟨ra.1, ri.1, rs.1⟩, rs.2)

/-! ### parser.py — hub detection and card extraction

`parse_notion_html` runs a long chain of sanitization transforms over a
BeautifulSoup tree before the hub-detection step.  The claims under
verification concern the missing-body early return (lines 51–60) and the hub
classification and card extraction (lines 114–147), so the body is modelled
*after* sanitization: the collection table as its rows, the surrounding text
as the joined stripped text of the other children, the `link-to-page` figures
as their first anchors, and the serialized markup with and without the
collection table. -/

/-- One `<td>` of a `collection-content` table row: its first `<a>` (stripped
text and `href` attribute, already defaulted to `''` as `link.get('href', '')`
does), the `src` of an `<img>` inside a `<span class="icon">` when present,
and the cell's stripped text. -/
structure TableCell where
  link : Option (String × String)
  icon : Option String
  text : String
deriving DecidableEq

/-- A card as built by `_extract_cards_from_table` /
`_extract_cards_from_links`. -/
structure Card where
  title : String
  url : String
  icon : Option String
  description : String
  image : Option String
deriving DecidableEq

/-- `_extract_cards_from_table(table)` (parser.py lines 222–263). -/
def extractCardsFromTable : List (List TableCell) → List Card
  | [] => []
  | row :: rest =>
    match row with
    | [] => extractCardsFromTable rest
    | c0 :: others =>
      match c0.link with
      | none => extractCardsFromTable rest
      | some tu =>
        let description :=
          match others with
          | [] => ""
          | c1 :: _ => if c1.text ≠ "" ∧ ¬ strStarts c1.text "@" then c1.text else ""
        if tu.1 ≠ "" then
          ⟨tu.1, tu.2, c0.icon, description, none⟩ :: extractCardsFromTable rest
        else extractCardsFromTable rest

/-- `_extract_cards_from_links(link_figures)` (parser.py lines 266–286); each
figure is modelled by its first `<a>` when present. -/
def extractCardsFromLinks : List (Option (String × String)) → List Card
  | [] => []
  | none :: rest => extractCardsFromLinks rest
  | some tu :: rest =>
    if tu.1 ≠ "" then ⟨tu.1, tu.2, none, "", none⟩ :: extractCardsFromLinks rest
    else extractCardsFromLinks rest

/-- The sanitized `page-body` of one document (see the section comment). -/
structure BodyModel where
  collectionRows : Option (List (List TableCell))
  nonTableText : String
  linkFigures : List (Option (String × String))
  markupFull : String
  markupSansTable : String
deriving DecidableEq

/-- The structural markers `parse_notion_html` reads from one raw document:
the stripped text of `h1.page-title`, the `id` attribute of `<article>`, the
`src` of `img.page-cover-image`, and the `div.page-body` when present. -/
structure NotionDoc where
  pageTitle : Option String
  articleId : Option String
  coverImage : Option String
  body : Option BodyModel
deriving DecidableEq

/-- The result record of `parse_notion_html`. -/
structure ParsedDocument where
  title : String
  content : String
  coverImage : Option String
  isHub : Bool
  notionId : String
  cards : List Card
deriving DecidableEq

/-- `re.sub(r'\n{3,}', '\n\n', content)` (parser.py line 150): collapses runs
of three or more newlines to two. -/
def squeezeNL : Nat → List Char → List Char
  | run, [] => if 3 ≤ run then ['\n', '\n'] else List.replicate run '\n'
  | run, c :: rest =>
    if c = '\n' then squeezeNL (run + 1) rest
    else
      (if 3 ≤ run then ['\n', '\n'] else List.replicate run '\n') ++ c :: squeezeNL 0 rest

def squeezeNewlines (s : String) : String := String.mk (squeezeNL 0 s.data)

/-- `parse_notion_html(html_content)` (parser.py lines 22–159) over the
document model: title / article id / cover extraction, the missing-body early
return, hub detection with the fixed 1500-character threshold and the
more-than-3 `link-to-page` fallback, card extraction, and the
collection-table stripping for hub pages. -/
def parseNotionHtml (d : NotionDoc) : ParsedDocument :=
  let title := d.pageTitle.getD ""
  let notionId :=
    match d.articleId with
    | some i => if i = "" then "" else strReplace i "-" ""
    | none => ""
  match d.body with
  | none => ⟨title, "", d.coverImage, false, notionId, []⟩
  | some b =>
    let hubA : Bool × List Card :=
      match b.collectionRows with
      | some rows =>
        if b.nonTableText.length < 1500 then (true, extractCardsFromTable rows)
        else (false, [])
      | none => (false, [])
    let hub : Bool × List Card :=
      if ¬ hubA.1 then
        if 3 < b.linkFigures.length then (true, extractCardsFromLinks b.linkFigures)
        else (false, [])
      else hubA
    let content :=
      if hub.1 ∧ b.collectionRows.isSome then b.markupSansTable else b.markupFull
    ⟨title, squeezeNewlines content, d.coverImage, hub.1, notionId, hub.2⟩

/-! ### Derived notions used by the statements -/

/-- The slug `build_slug_map` assigns when processing one entry: the manual
override when the id is in `SLUG_OVERRIDES`, else `make_slug`. -/
def docSlug (title relDir nid : String) : String :=
  match dget SLUG_OVERRIDES nid with
  | some s => s
  | none => makeSlug title relDir

/-- The `(id, slug)` pair one walk entry contributes to the slug map (none
when the file is not `.html` or carries no extractable id). -/
def assignedOf (e : WalkFile) : Option (String × String) :=
  if strEnds e.name ".html" then
    match extractNotionId e.name with
    | some ti => some (ti.2, docSlug ti.1 e.relDir ti.2)
    | none => none
  else none

/-- Whether two per-entry slug assignments keep injectivity: whenever both
entries contribute, distinct ids must receive distinct slugs. -/
def assignedDistinctB : Option (String × String) → Option (String × String) → Bool
  | some p1, some p2 => (p1.1 == p2.1) || !(p1.2 == p2.2)
  | _, _ => true

/-- Checker for the asset walk: every collision resolved by the
parent-directory name must produce a name that is itself fresh (i.e. the
counter loop of `build_asset_map` never runs).  On such walks the two asset
resolvers coincide. -/
def noSecondCollisionGo (mapaDir : String) : List String → List WalkFile → Bool
  | _, [] => true
  | seen, e :: rest =>
    let ext := asciiLower (splitextS e.name).2
    if ext ∈ MEDIA_EXTENSIONS then
      let cleanName := cleanAssetName e.name ++ ext
      if cleanName ∈ seen then
        let pre2 := slugifyM (parentName mapaDir e.relDir) 30 ++ "-" ++ cleanName
        decide (pre2 ∉ seen) && noSecondCollisionGo mapaDir (addSet seen pre2) rest
      else noSecondCollisionGo mapaDir (addSet seen cleanName) rest
    else noSecondCollisionGo mapaDir seen rest

def noSecondCollision (mapaDir : String) (tree : List WalkFile) : Bool :=
  noSecondCollisionGo mapaDir [] tree

/-- An asset reference is *inert* when it hits none of the "needs resolution"
patterns of `_rewrite_asset_src` in a way that could change it: it is a data
URI or external URL (skipped), or its exact-path lookup already returns the
reference itself, or every lookup (exact, normalized, filename-only) either
misses or returns the reference itself and the out-of-tree branch does not
fire. -/
def assetInertB (cfg : LinkCfg) (s sourceDir : String) (st : FState) : Bool :=
  strStarts s "data:" || strStarts s "http://" || strStarts s "https://" ||
  (let decoded := unquote s
   let absPath := normpath (pathJoin sourceDir decoded)
   let rel := relpathAbs absPath cfg.mapaDir
   (dget st.assetMap rel == some s) ||
   ((dget st.assetMap rel == none) &&
    (dget st.assetMap (strReplace rel "\\" "/") == none) &&
    ((fuzzyMatch st.assetMap (basenameS decoded) == some s) ||
     ((fuzzyMatch st.assetMap (basenameS decoded) == none) &&
      (!(strStarts rel "..") || !(decide (absPath ∈ st.diskFiles)) ||
       strStarts (relpathAbs absPath cfg.exportDir) "..")))))

/-- An anchor href is *inert* when it re-matches none of the "needs
resolution" patterns of `_rewrite_href`: fragment-only and script links,
external links that resolve to nothing, document links whose id extraction or
slug lookup misses, and asset references that are themselves inert. -/
def hrefInertB (cfg : LinkCfg) (h sourceDir : String) (slugM : SMap) (st : FState) : Bool :=
  strStarts h "#" || strStarts h "javascript:" ||
  (let decoded := unquote h
   if strStarts decoded "http://" || strStarts decoded "https://" then
     !(strHas decoded "bhakti.pages.dev") &&
     ((!(strHas decoded "notion.so") && !(strHas decoded "notion.site")) ||
      ((extractNotionIdFromUrl decoded).bind (fun nid => dget slugM nid) == none))
   else if strEnds decoded ".html" || strHas decoded ".html#" then
     ((matchNotionFilename (basenameS (normpath (pathJoin sourceDir (rsplitHash decoded).1)))).bind
        (fun ti => hrefIdLookup slugM ti.2) == none) &&
     ((matchNotionFilename (basenameS (rsplitHash decoded).1)).bind
        (fun ti => hrefIdLookup slugM ti.2) == none)
   else assetInertB cfg h sourceDir st)

/-! ## Supporting lemmas -/

theorem dvals_cons (p : String × String) (m : SMap) : dvals (p :: m) = p.2 :: dvals m := rfl

theorem dget_cons (p : String × String) (m : SMap) (k : String) :
    dget (p :: m) k = if p.1 = k then some p.2 else dget m k := by
  by_cases h : p.1 = k
  · simp [dget, List.find?_cons_of_pos, h]
  · simp [dget, List.find?_cons_of_neg, h]

theorem dput_cons_eq (p : String × String) (m : SMap) (k v : String) (h : p.1 = k) :
    dput (p :: m) k v = (k, v) :: m := by simp [dput, h]

theorem dput_cons_ne (p : String × String) (m : SMap) (k v : String) (h : ¬ p.1 = k) :
    dput (p :: m) k v = p :: dput m k v := by simp [dput, h]

theorem dget_dput (m : SMap) (k k2 v : String) :
    dget (dput m k v) k2 = if k = k2 then some v else dget m k2 := by
  induction m with
  | nil => rw [show dput [] k v = [(k, v)] from rfl, dget_cons]
  | cons p rest ih =>
    by_cases h : p.1 = k
    · rw [dput_cons_eq p rest k v h, dget_cons]
      by_cases h2 : k = k2
      · simp [h2, dget_cons]
      · have h3 : ¬ p.1 = k2 := fun hp => h2 (h.symm.trans hp)
        simp only [if_neg h2, dget_cons, if_neg h3]
    · rw [dput_cons_ne p rest k v h, dget_cons, dget_cons, ih]
      by_cases h2 : k = k2
      · subst h2
        rw [if_pos rfl, if_neg h, if_pos rfl]
      · rw [if_neg h2, if_neg h2]

theorem mem_dvals_dput (m : SMap) (k v w : String) (h : w ∈ dvals (dput m k v)) :
    w = v ∨ w ∈ dvals m := by
  induction m with
  | nil =>
    rw [show dput [] k v = [(k, v)] from rfl, dvals_cons, List.mem_cons] at h
    rcases h with h | h
    · exact Or.inl h
    · exact absurd h (List.not_mem_nil w)
  | cons p rest ih =>
    by_cases hp : p.1 = k
    · rw [dput_cons_eq p rest k v hp] at h
      rw [dvals_cons, List.mem_cons] at h
      rw [dvals_cons, List.mem_cons]
      tauto
    · rw [dput_cons_ne p rest k v hp, dvals_cons, List.mem_cons] at h
      rw [dvals_cons, List.mem_cons]
      rcases h with h1 | h1
      · tauto
      · rcases ih h1 with h2 | h2 <;> tauto

theorem dvals_dput_nodup (m : SMap) (k v : String)
    (hn : (dvals m).Nodup) (hv : v ∉ dvals m) : (dvals (dput m k v)).Nodup := by
  induction m with
  | nil => exact List.nodup_singleton v
  | cons p rest ih =>
    rw [dvals_cons, List.nodup_cons] at hn
    rw [dvals_cons, List.mem_cons] at hv
    push_neg at hv
    by_cases hp : p.1 = k
    · rw [dput_cons_eq p rest k v hp, dvals_cons, List.nodup_cons]
      exact ⟨hv.2, hn.2⟩
    · rw [dput_cons_ne p rest k v hp, dvals_cons, List.nodup_cons]
      refine ⟨fun hmem => ?_, ih hn.2 hv.2⟩
      rcases mem_dvals_dput rest k v p.2 hmem with h | h
      · exact hv.1 h.symm
      · exact hn.1 h

theorem buildSlugMapGo_override (mapaDir : String) (tree : List WalkFile)
    (slugM fileM titleM : SMap) (nid s : String)
    (hov : dget SLUG_OVERRIDES nid = some s)
    (h : dget slugM nid = some s ∨
      ∃ e ∈ tree, strEnds e.name ".html" = true ∧ ∃ t, extractNotionId e.name = some (t, nid)) :
    dget (buildSlugMapGo mapaDir slugM fileM titleM tree).1 nid = some s := by
  induction tree generalizing slugM fileM titleM with
  | nil =>
    rcases h with h | ⟨e, he, _⟩
    · simpa [buildSlugMapGo] using h
    · exact absurd he (List.not_mem_nil e)
  | cons e rest ih =>
    by_cases hh : strEnds e.name ".html" = true
    · rcases hx : extractNotionId e.name with _ | ti
      · simp only [buildSlugMapGo, hh, if_true, hx]
        refine ih _ _ _ ?_
        rcases h with h | ⟨e2, he2, hb2, t2, ht2⟩
        · exact Or.inl h
        · rcases List.mem_cons.1 he2 with rfl | he2
          · rw [hx] at ht2; exact absurd ht2 (by simp)
          · exact Or.inr ⟨e2, he2, hb2, t2, ht2⟩
      · by_cases hn : ti.2 = nid
        · have hov2 : dget SLUG_OVERRIDES ti.2 = some s := by rw [hn]; exact hov
          simp only [buildSlugMapGo, hh, if_true, hx, hov2]
          refine ih _ _ _ (Or.inl ?_)
          rw [dget_dput, if_pos hn]
        · rcases ho : dget SLUG_OVERRIDES ti.2 with _ | s0 <;>
            [skip; skip] <;>
          · simp only [buildSlugMapGo, hh, if_true, hx, ho]
            refine ih _ _ _ ?_
            rcases h with h | ⟨e2, he2, hb2, t2, ht2⟩
            · exact Or.inl (by rw [dget_dput, if_neg hn]; exact h)
            · rcases List.mem_cons.1 he2 with rfl | he2
              · rw [hx] at ht2
                injection ht2 with hti
                exact absurd (congrArg Prod.snd hti) hn
              · exact Or.inr ⟨e2, he2, hb2, t2, ht2⟩
    · have hstep : buildSlugMapGo mapaDir slugM fileM titleM (e :: rest)
          = buildSlugMapGo mapaDir slugM fileM titleM rest := by
        simp only [buildSlugMapGo, hh, Bool.false_eq_true, if_false]
      rw [hstep]
      refine ih _ _ _ ?_
      rcases h with h | ⟨e2, he2, hb2, t2, ht2⟩
      · exact Or.inl h
      · rcases List.mem_cons.1 he2 with rfl | he2
        · exact absurd hb2 hh
        · exact Or.inr ⟨e2, he2, hb2, t2, ht2⟩

theorem buildSlugMapGo_lookup (mapaDir : String) (tree : List WalkFile)
    (slugM fileM titleM : SMap) (k v : String)
    (h : dget (buildSlugMapGo mapaDir slugM fileM titleM tree).1 k = some v) :
    (∃ e ∈ tree, assignedOf e = some (k, v)) ∨ dget slugM k = some v := by
  induction tree generalizing slugM fileM titleM with
  | nil => exact Or.inr (by simpa [buildSlugMapGo] using h)
  | cons e rest ih =>
    by_cases hh : strEnds e.name ".html" = true
    · rcases hx : extractNotionId e.name with _ | ti
      · simp only [buildSlugMapGo, hh, if_true, hx] at h
        rcases ih _ _ _ h with ⟨e2, he2, ha2⟩ | h2
        · exact Or.inl ⟨e2, List.mem_cons_of_mem e he2, ha2⟩
        · exact Or.inr h2
      · rcases ho : dget SLUG_OVERRIDES ti.2 with _ | s0 <;>
          [skip; skip] <;>
        · simp only [buildSlugMapGo, hh, if_true, hx, ho] at h
          rcases ih _ _ _ h with ⟨e2, he2, ha2⟩ | h2
          · exact Or.inl ⟨e2, List.mem_cons_of_mem e he2, ha2⟩
          · rw [dget_dput] at h2
            by_cases hk : ti.2 = k
            · rw [if_pos hk] at h2
              injection h2 with hv
              refine Or.inl ⟨e, List.mem_cons_self e rest, ?_⟩
              simp only [assignedOf, hh, if_true, hx, docSlug, ho]
              rw [hk, hv]
            · rw [if_neg hk] at h2
              exact Or.inr h2
    · have hstep : buildSlugMapGo mapaDir slugM fileM titleM (e :: rest)
          = buildSlugMapGo mapaDir slugM fileM titleM rest := by
        simp only [buildSlugMapGo, hh, Bool.false_eq_true, if_false]
      rw [hstep] at h
      rcases ih _ _ _ h with ⟨e2, he2, ha2⟩ | h2
      · exact Or.inl ⟨e2, List.mem_cons_of_mem e he2, ha2⟩
      · exact Or.inr h2

/-! ## Claims -/

/-- C1 (counterexample).  `build_slug_map` is *not* injective: two distinct
source ids whose documents carry the same title in the same directory are
assigned the same slug `/hola/`. -/
theorem buildSlugMap_collision_cex :
    dget (buildSlugMap "/m" [⟨".", "Hola aaaaaaaaaaaaaaaaaaaaaaaaaaaaaaaa.html"⟩,
      ⟨".", "Hola bbbbbbbbbbbbbbbbbbbbbbbbbbbbbbbb.html"⟩]).1
        "aaaaaaaaaaaaaaaaaaaaaaaaaaaaaaaa" = some "/hola/" ∧
    dget (buildSlugMap "/m" [⟨".", "Hola aaaaaaaaaaaaaaaaaaaaaaaaaaaaaaaa.html"⟩,
      ⟨".", "Hola bbbbbbbbbbbbbbbbbbbbbbbbbbbbbbbb.html"⟩]).1
        "bbbbbbbbbbbbbbbbbbbbbbbbbbbbbbbb" = some "/hola/" ∧
    ("aaaaaaaaaaaaaaaaaaaaaaaaaaaaaaaa" : String) ≠ "bbbbbbbbbbbbbbbbbbbbbbbbbbbbbbbb" :=
  ⟨by decide, by decide, by decide⟩

/-- C1 (amended).  The slug mapping produced by `build_slug_map` is injective
provided the per-document assigned slugs (manual overrides and heuristically
computed slugs alike) are pairwise distinct across distinct source ids; the
code itself never enforces this precondition. -/
theorem buildSlugMap_injective_of_assigned_distinct (mapaDir : String) (tree : List WalkFile)
    (H : ∀ e1 ∈ tree, ∀ e2 ∈ tree, assignedDistinctB (assignedOf e1) (assignedOf e2) = true)
    (k1 k2 v : String)
    (h1 : dget (buildSlugMap mapaDir tree).1 k1 = some v)
    (h2 : dget (buildSlugMap mapaDir tree).1 k2 = some v) : k1 = k2 := by
  rcases buildSlugMapGo_lookup mapaDir tree [] [] [] k1 v h1 with ⟨e1, he1, ha1⟩ | hbad
  · rcases buildSlugMapGo_lookup mapaDir tree [] [] [] k2 v h2 with ⟨e2, he2, ha2⟩ | hbad
    · have hd := H e1 he1 e2 he2
      rw [ha1, ha2] at hd
      simp only [assignedDistinctB, Bool.or_eq_true, beq_iff_eq, Bool.not_eq_eq_eq_not,
        bne_iff_ne] at hd
      rcases hd with hd | hd
      · exact hd
      · simp [assignedDistinctB] at hd
    · simp [dget] at hbad
  · simp [dget] at hbad

/-- Witness for C1 (amended) at a two-document tree with distinct titles. -/
theorem buildSlugMap_injective_of_assigned_distinct_witness :
    ("aaaaaaaaaaaaaaaaaaaaaaaaaaaaaaaa" : String) = "aaaaaaaaaaaaaaaaaaaaaaaaaaaaaaaa" :=
  buildSlugMap_injective_of_assigned_distinct "/m"
    [⟨".", "Hola aaaaaaaaaaaaaaaaaaaaaaaaaaaaaaaa.html"⟩,
     ⟨".", "Adios bbbbbbbbbbbbbbbbbbbbbbbbbbbbbbbb.html"⟩]
    (by decide) "aaaaaaaaaaaaaaaaaaaaaaaaaaaaaaaa" "aaaaaaaaaaaaaaaaaaaaaaaaaaaaaaaa"
    "/hola/" (by decide) (by decide)

/-- C3.  A manual override always wins: for every document whose extracted id
is a key of `SLUG_OVERRIDES`, `build_slug_map` assigns exactly the override
slug, independent of title and directory; in particular the document
`Estatutos 55e021b5b0194c9ebaba695a74433538.html` resolves to `/estatutos/`
wherever it sits in the tree. -/
theorem slug_overrides_always_win :
    (∀ (mapaDir : String) (tree : List WalkFile) (nid s : String),
      dget SLUG_OVERRIDES nid = some s →
      (∃ e ∈ tree, strEnds e.name ".html" = true ∧ ∃ t, extractNotionId e.name = some (t, nid)) →
      dget (buildSlugMap mapaDir tree).1 nid = some s) ∧
    (∀ (mapaDir : String) (tree : List WalkFile) (dir : String),
      (⟨dir, "Estatutos 55e021b5b0194c9ebaba695a74433538.html"⟩ : WalkFile) ∈ tree →
      dget (buildSlugMap mapaDir tree).1 "55e021b5b0194c9ebaba695a74433538" = some "/estatutos/") := by
  have gen : ∀ (mapaDir : String) (tree : List WalkFile) (nid s : String),
      dget SLUG_OVERRIDES nid = some s →
      (∃ e ∈ tree, strEnds e.name ".html" = true ∧ ∃ t, extractNotionId e.name = some (t, nid)) →
      dget (buildSlugMap mapaDir tree).1 nid = some s := by
    intro mapaDir tree nid s hov hex
    exact buildSlugMapGo_override mapaDir tree [] [] [] nid s hov (Or.inr hex)
  refine ⟨gen, ?_⟩
  intro mapaDir tree dir hmem
  refine gen mapaDir tree _ _ (by decide)
    ⟨⟨dir, "Estatutos 55e021b5b0194c9ebaba695a74433538.html"⟩, hmem,
     (show strEnds "Estatutos 55e021b5b0194c9ebaba695a74433538.html" ".html" = true by decide),
     "Estatutos",
     (show extractNotionId "Estatutos 55e021b5b0194c9ebaba695a74433538.html"
        = some ("Estatutos", "55e021b5b0194c9ebaba695a74433538") by decide)⟩

/-- Witness for C3: the Estatutos document nested two directories deep. -/
theorem slug_overrides_always_win_witness :
    dget (buildSlugMap "/export/Mapa de la web"
      [⟨"Comunidad/Docs", "Estatutos 55e021b5b0194c9ebaba695a74433538.html"⟩]).1
      "55e021b5b0194c9ebaba695a74433538" = some "/estatutos/" :=
  slug_overrides_always_win.2 "/export/Mapa de la web"
    [⟨"Comunidad/Docs", "Estatutos 55e021b5b0194c9ebaba695a74433538.html"⟩]
    "Comunidad/Docs" (List.mem_singleton.2 rfl)

/-- C5.  Hub classification boundary: with a collection-content table present
and at most 3 link-to-page figures, a page whose non-table surrounding text
has 1400 characters is classified as a hub (its cards extracted from the
table), while one with 1600 characters is not (the threshold is 1500). -/
theorem hub_threshold_boundary (d₁ d₂ : NotionDoc) (b₁ b₂ : BodyModel)
    (rows₁ rows₂ : List (List TableCell))
    (h₁ : d₁.body = some b₁) (hr₁ : b₁.collectionRows = some rows₁)
    (hf₁ : b₁.linkFigures.length ≤ 3) (hl₁ : b₁.nonTableText.length = 1400)
    (h₂ : d₂.body = some b₂) (hr₂ : b₂.collectionRows = some rows₂)
    (hf₂ : b₂.linkFigures.length ≤ 3) (hl₂ : b₂.nonTableText.length = 1600) :
    ((parseNotionHtml d₁).isHub = true ∧
     (parseNotionHtml d₁).cards = extractCardsFromTable rows₁) ∧
    ((parseNotionHtml d₂).isHub = false ∧ (parseNotionHtml d₂).cards = []) := by
  constructor
  · simp [parseNotionHtml, h₁, hr₁, hl₁]
  · have hnf : ¬ (3 < b₂.linkFigures.length) := by omega
    simp [parseNotionHtml, h₂, hr₂, hl₂, hnf]

/-- Witness for C5 at a one-row listing table with 1400- and 1600-character
surrounding text. -/
theorem hub_threshold_boundary_witness :
    ((parseNotionHtml ⟨none, none, none, some ⟨some [[⟨some ("Blog", "b.html"), none, "Blog"⟩]],
        String.mk (List.replicate 1400 'x'), [], "full", "sans"⟩⟩).isHub = true ∧
     (parseNotionHtml ⟨none, none, none, some ⟨some [[⟨some ("Blog", "b.html"), none, "Blog"⟩]],
        String.mk (List.replicate 1400 'x'), [], "full", "sans"⟩⟩).cards
        = extractCardsFromTable [[⟨some ("Blog", "b.html"), none, "Blog"⟩]]) ∧
    ((parseNotionHtml ⟨none, none, none, some ⟨some [[⟨some ("Blog", "b.html"), none, "Blog"⟩]],
        String.mk (List.replicate 1600 'x'), [], "full", "sans"⟩⟩).isHub = false ∧
     (parseNotionHtml ⟨none, none, none, some ⟨some [[⟨some ("Blog", "b.html"), none, "Blog"⟩]],
        String.mk (List.replicate 1600 'x'), [], "full", "sans"⟩⟩).cards = []) :=
  hub_threshold_boundary _ _ _ _ _ _ rfl rfl (by decide)
    (by rw [show (String.mk (List.replicate 1400 'x')).length
          = (List.replicate 1400 'x').length from rfl, List.length_replicate])
    rfl rfl (by decide)
    (by rw [show (String.mk (List.replicate 1600 'x')).length
          = (List.replicate 1600 'x').length from rfl, List.length_replicate])

/-- C9.  A document without a page-body container parses (totally, with no
exception path) to an empty, non-hub result with no cards, while title and
cover image are still extracted. -/
theorem parse_missing_body_degrades (d : NotionDoc) (h : d.body = none) :
    (parseNotionHtml d).content = "" ∧ (parseNotionHtml d).isHub = false ∧
    (parseNotionHtml d).cards = [] ∧ (parseNotionHtml d).title = d.pageTitle.getD "" ∧
    (parseNotionHtml d).coverImage = d.coverImage := by
  simp [parseNotionHtml, h]

/-- Witness for C9 at a document with title and cover but no body. -/
theorem parse_missing_body_degrades_witness :
    (parseNotionHtml ⟨some "Estatutos", some "ab-cd", some "/assets/c.png", none⟩).content = "" ∧
    (parseNotionHtml ⟨some "Estatutos", some "ab-cd", some "/assets/c.png", none⟩).isHub = false ∧
    (parseNotionHtml ⟨some "Estatutos", some "ab-cd", some "/assets/c.png", none⟩).title
      = "Estatutos" :=
  ⟨(parse_missing_body_degrades ⟨some "Estatutos", some "ab-cd", some "/assets/c.png", none⟩ rfl).1,
   (parse_missing_body_degrades ⟨some "Estatutos", some "ab-cd", some "/assets/c.png", none⟩
      rfl).2.1,
   (parse_missing_body_degrades ⟨some "Estatutos", some "ab-cd", some "/assets/c.png", none⟩
      rfl).2.2.2.1⟩

/-- C2 (counterexample).  Assigned asset names are *not* globally unique once
the Reference Rewriter's out-of-tree extension runs: an out-of-tree file
`Foto.JPG` is assigned `/assets/foto.jpg`, which the initial build pass had
already assigned to the in-tree asset `a/foto.jpg`. -/
theorem assetMap_duplicate_name_cex :
    (dget (rewriteAssetSrc ⟨"/e/Mapa", "/e", "/out"⟩ "../Copy/Foto.JPG" "/e/Mapa"
        ⟨buildAssetMap "/e/Mapa" [⟨"a", "foto.jpg"⟩], ["/e/Copy/Foto.JPG"], []⟩).2.assetMap
      "a/foto.jpg" = some "/assets/foto.jpg") ∧
    (dget (rewriteAssetSrc ⟨"/e/Mapa", "/e", "/out"⟩ "../Copy/Foto.JPG" "/e/Mapa"
        ⟨buildAssetMap "/e/Mapa" [⟨"a", "foto.jpg"⟩], ["/e/Copy/Foto.JPG"], []⟩).2.assetMap
      "../Copy/Foto.JPG" = some "/assets/foto.jpg") ∧
    ("a/foto.jpg" : String) ≠ "../Copy/Foto.JPG" :=
  ⟨by decide, by decide, by decide⟩

/-- C10 (counterexample).  The two Asset Resolver implementations are not
equivalent: `.wav` is a media extension for `build_asset_map` but not for
`build_asset_path_map`. -/
theorem asset_resolvers_differ_cex :
    buildAssetPathMap "/m" [⟨"a", "x.wav"⟩] ≠ buildAssetMap "/m" [⟨"a", "x.wav"⟩] := by decide

/-- C4 (counterexample).  `rewrite_links` is *not* idempotent: an image source
rewritten to `/assets/foto-final.jpg` re-matches the filename-only fuzzy
lookup on a second pass (another asset's original filename is
`foto-final.jpg`) and is changed to that asset's name. -/
theorem rewriteLinks_second_pass_changes_cex :
    (rewriteLinks ⟨"/e/m", "/e", "/out"⟩ ⟨[], ["Foto Final.JPG"], []⟩ "/e/m/a/Page.html" []
      ⟨[("a/Foto Final.JPG", "/assets/foto-final.jpg"),
        ("b/foto-final.jpg", "/assets/b-foto-final.jpg")], [], []⟩)
      = (⟨[], ["/assets/foto-final.jpg"], []⟩,
         ⟨[("a/Foto Final.JPG", "/assets/foto-final.jpg"),
           ("b/foto-final.jpg", "/assets/b-foto-final.jpg")], [], []⟩) ∧
    (rewriteLinks ⟨"/e/m", "/e", "/out"⟩ ⟨[], ["/assets/foto-final.jpg"], []⟩ "/e/m/a/Page.html" []
      ⟨[("a/Foto Final.JPG", "/assets/foto-final.jpg"),
        ("b/foto-final.jpg", "/assets/b-foto-final.jpg")], [], []⟩).1
      ≠ ⟨[], ["/assets/foto-final.jpg"], []⟩ :=
  ⟨by decide, by decide⟩

theorem mediaExts_sub (x : String) (h : x ∈ mediaExtsPages) : x ∈ MEDIA_EXTENSIONS := by
  fin_cases h <;> decide

theorem asset_resolvers_agree_go (mapaDir : String) (tree : List WalkFile)
    (m : SMap) (seen : List String)
    (hExt : ∀ e ∈ tree, asciiLower (splitextS e.name).2 ∈ MEDIA_EXTENSIONS →
      asciiLower (splitextS e.name).2 ∈ mediaExtsPages)
    (hCol : noSecondCollisionGo mapaDir seen tree = true) :
    buildAssetPathMapGo mapaDir m seen tree = buildAssetMapGo mapaDir m seen tree := by
  induction tree generalizing m seen with
  | nil => rfl
  | cons e rest ih =>
    by_cases hbig : asciiLower (splitextS e.name).2 ∈ MEDIA_EXTENSIONS
    · have hsmall : asciiLower (splitextS e.name).2 ∈ mediaExtsPages :=
        hExt e (List.mem_cons_self e rest) hbig
      by_cases hseen : cleanAssetName e.name ++ asciiLower (splitextS e.name).2 ∈ seen
      · -- collision: the parent-dir name is used; the checker says it is fresh
        simp only [noSecondCollisionGo, if_pos hbig, if_pos hseen, Bool.and_eq_true,
          decide_eq_true_eq] at hCol
        have hfresh := hCol.1
        have hrest := hCol.2
        simp only [buildAssetPathMapGo, buildAssetMapGo, if_pos hbig, if_pos hsmall,
          if_pos hseen, resolveDupName, if_neg hfresh]
        exact ih _ _ (fun e2 he2 => hExt e2 (List.mem_cons_of_mem e he2)) hrest
      · simp only [noSecondCollisionGo, if_pos hbig, if_neg hseen] at hCol
        simp only [buildAssetPathMapGo, buildAssetMapGo, if_pos hbig, if_pos hsmall,
          if_neg hseen, resolveDupName]
        exact ih _ _ (fun e2 he2 => hExt e2 (List.mem_cons_of_mem e he2)) hCol
    · have hsmall : asciiLower (splitextS e.name).2 ∉ mediaExtsPages :=
        fun hs => hbig (mediaExts_sub _ hs)
      simp only [noSecondCollisionGo, if_neg hbig] at hCol
      simp only [buildAssetPathMapGo, buildAssetMapGo, if_neg hbig, if_neg hsmall]
      exact ih _ _ (fun e2 he2 => hExt e2 (List.mem_cons_of_mem e he2)) hCol

/-- C10 (amended).  The two Asset Resolver implementations agree on every
tree whose media files all use the smaller extension set of
`build_asset_path_map` and on which the parent-directory collision fallback
never itself collides (so `build_asset_map`'s counter loop never runs). -/
theorem asset_resolvers_agree (mapaDir : String) (tree : List WalkFile)
    (hExt : ∀ e ∈ tree, asciiLower (splitextS e.name).2 ∈ MEDIA_EXTENSIONS →
      asciiLower (splitextS e.name).2 ∈ mediaExtsPages)
    (hCol : noSecondCollision mapaDir tree = true) :
    buildAssetPathMap mapaDir tree = buildAssetMap mapaDir tree :=
  asset_resolvers_agree_go mapaDir tree [] [] hExt hCol

/-- Witness for C10 (amended) on a three-file tree with one collision. -/
theorem asset_resolvers_agree_witness :
    buildAssetPathMap "/e/Mapa" [⟨"a", "Foto Final.JPG"⟩, ⟨"b", "foto final.jpg"⟩, ⟨"c", "doc.pdf"⟩]
      = buildAssetMap "/e/Mapa" [⟨"a", "Foto Final.JPG"⟩, ⟨"b", "foto final.jpg"⟩, ⟨"c", "doc.pdf"⟩] :=
  asset_resolvers_agree "/e/Mapa" _ (by decide) (by decide)

theorem natDigitsF_stable (f : Nat) : ∀ n, n < f → ∀ g, n < g →
    natDigitsF f n = natDigitsF g n := by
  induction f with
  | zero => intro n hn; omega
  | succ f ih =>
    intro n hn g hg
    match g, hg with
    | g + 1, hg =>
      by_cases h10 : n < 10
      · simp [natDigitsF, h10]
      · have hdiv : n / 10 < n := Nat.div_lt_self (by omega) (by omega)
        simp only [natDigitsF, if_neg h10]
        rw [ih (n / 10) (by omega) g (by omega)]

theorem natDigits_rec (n : Nat) :
    natDigits n = if n < 10 then [digitChar10 n]
      else natDigits (n / 10) ++ [digitChar10 (n % 10)] := by
  by_cases h10 : n < 10
  · simp [natDigits, natDigitsF, h10]
  · have hdiv : n / 10 < n := Nat.div_lt_self (by omega) (by omega)
    rw [if_neg h10]
    show natDigitsF (n + 1) n = natDigits (n / 10) ++ [digitChar10 (n % 10)]
    simp only [natDigitsF, if_neg h10]
    rw [natDigitsF_stable n (n / 10) (by omega) (n / 10 + 1) (by omega)]
    rfl

theorem natDigits_ne_nil (n : Nat) : natDigits n ≠ [] := by
  rw [natDigits_rec]
  by_cases h10 : n < 10
  · simp [h10]
  · simp [h10]

theorem digitChar10_inj_lt (a b : Nat) (ha : a < 10) (hb : b < 10)
    (h : digitChar10 a = digitChar10 b) : a = b := by
  have : ∀ x : Fin 10, ∀ y : Fin 10, digitChar10 x.val = digitChar10 y.val → x = y := by decide
  have h2 := this ⟨a, ha⟩ ⟨b, hb⟩ h
  exact congrArg Fin.val h2

theorem digitChar10_mod (n : Nat) : digitChar10 (n % 10) = digitChar10 n := by
  simp [digitChar10, Nat.mod_mod_of_dvd]

theorem natDigits_inj (a : Nat) : ∀ b, natDigits a = natDigits b → a = b := by
  induction a using Nat.strong_induction_on with
  | _ a ih =>
    intro b h
    rw [natDigits_rec a, natDigits_rec b] at h
    by_cases ha : a < 10 <;> by_cases hb : b < 10
    · rw [if_pos ha, if_pos hb] at h
      injection h with h1 _
      exact digitChar10_inj_lt a b ha hb h1
    · rw [if_pos ha, if_neg hb] at h
      have := congrArg List.length h
      rcases hx : natDigits (b / 10) with _ | ⟨c, cs⟩
      · exact absurd hx (natDigits_ne_nil _)
      · rw [hx] at this; simp at this
    · rw [if_neg ha, if_pos hb] at h
      have := congrArg List.length h
      rcases hx : natDigits (a / 10) with _ | ⟨c, cs⟩
      · exact absurd hx (natDigits_ne_nil _)
      · rw [hx] at this; simp at this
    · rw [if_neg ha, if_neg hb] at h
      have hrev := congrArg List.reverse h
      simp only [List.reverse_append, List.reverse_cons, List.reverse_nil,
        List.nil_append, List.cons_append] at hrev
      injection hrev with h1 h2
      have hmod : a % 10 = b % 10 :=
        digitChar10_inj_lt _ _ (Nat.mod_lt a (by omega)) (Nat.mod_lt b (by omega)) h1
      have hdivs : a / 10 = b / 10 := by
        have := congrArg List.reverse h2
        simp only [List.reverse_reverse] at this
        exact ih (a / 10) (Nat.div_lt_self (by omega) (by omega)) (b / 10) this
      omega

theorem natDecimal_inj (a b : Nat) (h : natDecimal a = natDecimal b) : a = b := by
  apply natDigits_inj
  have := congrArg String.data h
  simpa [natDecimal] using this

theorem candName_inj (namePart ext : String) (i j : Nat)
    (h : candName namePart ext i = candName namePart ext j) : i = j := by
  have hd := congrArg String.data h
  simp only [candName, String.data_append, List.append_assoc] at hd
  have h2 := List.append_cancel_left hd
  have h3 := List.append_cancel_left h2
  have h4 := List.append_cancel_right h3
  exact natDecimal_inj i j (by
    have : String.mk (natDecimal i).data = String.mk (natDecimal j).data := by rw [h4]
    simpa using this)

theorem exists_fresh_cand (seen : List String) (namePart ext : String) :
    ∃ k, k ≤ seen.length ∧ candName namePart ext (2 + k) ∉ seen := by
  by_contra hall
  push_neg at hall
  have hmem : ∀ k ∈ List.range (seen.length + 1), candName namePart ext (2 + k) ∈ seen := by
    intro k hk
    exact hall k (by simpa using Nat.lt_succ_iff.1 (List.mem_range.1 hk))
  set L := (List.range (seen.length + 1)).map (fun k => candName namePart ext (2 + k)) with hL
  have hnodup : L.Nodup := by
    refine List.Nodup.map ?_ (List.nodup_range _)
    intro x y hxy
    have := candName_inj namePart ext (2 + x) (2 + y) hxy
    omega
  have hsub : L ⊆ seen := by
    intro x hx
    rw [hL, List.mem_map] at hx
    rcases hx with ⟨k, hk, rfl⟩
    exact hmem k hk
  have hlen : L.length ≤ seen.length := by
    calc L.length = L.toFinset.card := (List.toFinset_card_of_nodup hnodup).symm
      _ ≤ seen.toFinset.card := Finset.card_le_card (fun x hx => by
          simp only [List.mem_toFinset] at hx ⊢; exact hsub hx)
      _ ≤ seen.length := seen.toFinset_card_le
  rw [hL] at hlen
  simp at hlen

theorem countLoop_fresh (seen : List String) (namePart ext : String) :
    ∀ (fuel counter : Nat), (∃ k, k ≤ fuel ∧ candName namePart ext (counter + k) ∉ seen) →
    countLoop seen namePart ext counter fuel ∉ seen := by
  intro fuel
  induction fuel with
  | zero =>
    intro counter ⟨k, hk, hfresh⟩
    have : k = 0 := by omega
    subst this
    simpa [countLoop] using hfresh
  | succ f ih =>
    intro counter ⟨k, hk, hfresh⟩
    by_cases hc : candName namePart ext counter ∈ seen
    · simp only [countLoop, if_pos hc]
      refine ih (counter + 1) ?_
      rcases Nat.eq_zero_or_pos k with rfl | hkpos
      · simp at hfresh; exact absurd hc hfresh
      · exact ⟨k - 1, by omega, by
          have : counter + 1 + (k - 1) = counter + k := by omega
          rw [this]; exact hfresh⟩
    · simpa [countLoop, if_neg hc] using hc

theorem resolveDupName_fresh (seen : List String) (baseClean ext : String) :
    resolveDupName seen baseClean ext ∉ seen := by
  by_cases hb : baseClean ∈ seen
  · simp only [resolveDupName, if_pos hb]
    refine countLoop_fresh seen _ ext (seen.length + 1) 2 ?_
    rcases exists_fresh_cand seen (splitextS baseClean).1 ext with ⟨k, hk, hfresh⟩
    exact ⟨k, by omega, hfresh⟩
  · simpa [resolveDupName, if_neg hb] using hb

theorem addSet_subset (seen : List String) (x : String) : seen ⊆ addSet seen x := by
  intro y hy
  by_cases hx : x ∈ seen <;> simp [addSet, hx, hy]

theorem mem_addSet_self (seen : List String) (x : String) : x ∈ addSet seen x := by
  by_cases hx : x ∈ seen <;> simp [addSet, hx]

theorem buildAssetMapGo_nodup (mapaDir : String) (tree : List WalkFile) :
    ∀ (m : SMap) (seen : List String),
    (dvals m).Nodup → (∀ v ∈ dvals m, ∃ n ∈ seen, v = "/assets/" ++ n) →
    (dvals (buildAssetMapGo mapaDir m seen tree)).Nodup := by
  induction tree with
  | nil => intro m seen hn _; exact hn
  | cons e rest ih =>
    intro m seen hn hseen
    by_cases hbig : asciiLower (splitextS e.name).2 ∈ MEDIA_EXTENSIONS
    · simp only [buildAssetMapGo, if_pos hbig]
      set cleanName := cleanAssetName e.name ++ asciiLower (splitextS e.name).2 with hc
      set cleanName2 := if cleanName ∈ seen then
          slugifyM (parentName mapaDir e.relDir) 30 ++ "-" ++ cleanName else cleanName with hc2
      set fresh := resolveDupName seen cleanName2 (asciiLower (splitextS e.name).2) with hf
      have hfresh : fresh ∉ seen := resolveDupName_fresh _ _ _
      have hvnew : ("/assets/" ++ fresh) ∉ dvals m := by
        intro hmem
        rcases hseen _ hmem with ⟨n, hns, heq⟩
        have : fresh = n := by
          have := congrArg String.data heq
          simp only [String.data_append] at this
          have h2 := List.append_cancel_left this
          have : String.mk fresh.data = String.mk n.data := by rw [h2]
          simpa using this
        exact hfresh (this ▸ hns)
      refine ih _ _ (dvals_dput_nodup m _ _ hn hvnew) ?_
      intro v hv
      rcases mem_dvals_dput _ _ _ _ hv with rfl | hv2
      · exact ⟨fresh, mem_addSet_self seen fresh, rfl⟩
      · rcases hseen v hv2 with ⟨n, hns, heq⟩
        exact ⟨n, addSet_subset seen fresh hns, heq⟩
    · simp only [buildAssetMapGo, if_neg hbig]
      exact ih m seen hn hseen

/-- C2 (amended).  Within the Asset Resolver's initial build pass the
assigned `/assets/` names are pairwise distinct for every input tree; the
claimed global uniqueness fails only for entries added later by the
Reference Rewriter's out-of-tree extension. -/
theorem buildAssetMap_assigned_names_nodup (mapaDir : String) (tree : List WalkFile) :
    (dvals (buildAssetMap mapaDir tree)).Nodup :=
  buildAssetMapGo_nodup mapaDir tree [] [] List.nodup_nil (by intro v hv; simp [dvals] at hv)

theorem rewriteAssetSrc_idem_aux (cfg : LinkCfg) (src dir : String) (st : FState) :
    rewriteAssetSrc cfg src dir (rewriteAssetSrc cfg src dir st).2
      = rewriteAssetSrc cfg src dir st := by
  by_cases c1 : strStarts src "data:" = true
  · simp only [rewriteAssetSrc, c1, if_true]
  · simp only [Bool.not_eq_true] at c1
    by_cases c2 : (strStarts src "http://" || strStarts src "https://") = true
    · simp only [rewriteAssetSrc, c1, Bool.false_eq_true, if_false, c2, if_true]
    · simp only [Bool.not_eq_true] at c2
      rcases o1 : dget st.assetMap
          (relpathAbs (normpath (pathJoin dir (unquote src))) cfg.mapaDir) with _ | v
      · rcases o2 : dget st.assetMap
            (strReplace (relpathAbs (normpath (pathJoin dir (unquote src))) cfg.mapaDir)
              "\\" "/") with _ | v2
        · rcases o3 : fuzzyMatch st.assetMap (basenameS (unquote src)) with _ | v3
          · by_cases c3 : strStarts (relpathAbs (normpath (pathJoin dir (unquote src)))
                cfg.mapaDir) ".." ∧ normpath (pathJoin dir (unquote src)) ∈ st.diskFiles
            · by_cases c4 : ¬ strStarts (relpathAbs (normpath (pathJoin dir (unquote src)))
                  cfg.exportDir) ".."
              · -- the out-of-tree branch fires: the second call hits the exact lookup
                have hinner : rewriteAssetSrc cfg src dir st =
                    (some ("/assets/" ++
                        ((if slugifyM (splitextS (basenameS (unquote src))).1 80 = "" then "file"
                          else slugifyM (splitextS (basenameS (unquote src))).1 80) ++
                         asciiLower (splitextS (basenameS (unquote src))).2)),
                     { assetMap := dput st.assetMap
                         (relpathAbs (normpath (pathJoin dir (unquote src))) cfg.mapaDir)
                         ("/assets/" ++
                          ((if slugifyM (splitextS (basenameS (unquote src))).1 80 = "" then "file"
                            else slugifyM (splitextS (basenameS (unquote src))).1 80) ++
                           asciiLower (splitextS (basenameS (unquote src))).2)),
                       diskFiles := st.diskFiles,
                       outFiles := if pathJoin (pathJoin cfg.outputDir "assets")
                             ((if slugifyM (splitextS (basenameS (unquote src))).1 80 = "" then
                                "file"
                              else slugifyM (splitextS (basenameS (unquote src))).1 80) ++
                              asciiLower (splitextS (basenameS (unquote src))).2) ∈ st.outFiles
                         then st.outFiles
                         else st.outFiles ++ [pathJoin (pathJoin cfg.outputDir "assets")
                             ((if slugifyM (splitextS (basenameS (unquote src))).1 80 = "" then
                                "file"
                              else slugifyM (splitextS (basenameS (unquote src))).1 80) ++
                              asciiLower (splitextS (basenameS (unquote src))).2)] }) := by
                  simp only [rewriteAssetSrc, c1, c2, Bool.false_eq_true, if_false, o1, o2, o3,
                    if_pos c3, if_pos c4]
                rw [hinner]
                have hlook : dget (dput st.assetMap
                    (relpathAbs (normpath (pathJoin dir (unquote src))) cfg.mapaDir)
                    ("/assets/" ++
                     ((if slugifyM (splitextS (basenameS (unquote src))).1 80 = "" then "file"
                       else slugifyM (splitextS (basenameS (unquote src))).1 80) ++
                      asciiLower (splitextS (basenameS (unquote src))).2)))
                    (relpathAbs (normpath (pathJoin dir (unquote src))) cfg.mapaDir)
                    = some ("/assets/" ++
                       ((if slugifyM (splitextS (basenameS (unquote src))).1 80 = "" then "file"
                         else slugifyM (splitextS (basenameS (unquote src))).1 80) ++
                        asciiLower (splitextS (basenameS (unquote src))).2)) := by
                  rw [dget_dput, if_pos rfl]
                simp only [rewriteAssetSrc, c1, c2, Bool.false_eq_true, if_false, hlook]
              · simp only [rewriteAssetSrc, c1, c2, Bool.false_eq_true, if_false, o1, o2, o3,
                  if_pos c3, if_neg c4]
              -- hmm this leaves the goal with second call on same state: close below
            · simp only [rewriteAssetSrc, c1, c2, Bool.false_eq_true, if_false, o1, o2, o3,
                if_neg c3]
          · simp only [rewriteAssetSrc, c1, c2, Bool.false_eq_true, if_false, o1, o2, o3]
        · simp only [rewriteAssetSrc, c1, c2, Bool.false_eq_true, if_false, o1, o2]
      · simp only [rewriteAssetSrc, c1, c2, Bool.false_eq_true, if_false, o1]

theorem rewriteAssetSrc_append_only (cfg : LinkCfg) (src dir : String) (st : FState)
    (k v : String) (h : dget st.assetMap k = some v) :
    dget (rewriteAssetSrc cfg src dir st).2.assetMap k = some v := by
  by_cases c1 : strStarts src "data:" = true
  · simp only [rewriteAssetSrc, c1, if_true]; exact h
  · simp only [Bool.not_eq_true] at c1
    by_cases c2 : (strStarts src "http://" || strStarts src "https://") = true
    · simp only [rewriteAssetSrc, c1, Bool.false_eq_true, if_false, c2, if_true]; exact h
    · simp only [Bool.not_eq_true] at c2
      rcases o1 : dget st.assetMap
          (relpathAbs (normpath (pathJoin dir (unquote src))) cfg.mapaDir) with _ | v1
      · rcases o2 : dget st.assetMap
            (strReplace (relpathAbs (normpath (pathJoin dir (unquote src))) cfg.mapaDir)
              "\\" "/") with _ | v2
        · rcases o3 : fuzzyMatch st.assetMap (basenameS (unquote src)) with _ | v3
          · by_cases c3 : strStarts (relpathAbs (normpath (pathJoin dir (unquote src)))
                cfg.mapaDir) ".." ∧ normpath (pathJoin dir (unquote src)) ∈ st.diskFiles
            · by_cases c4 : ¬ strStarts (relpathAbs (normpath (pathJoin dir (unquote src)))
                  cfg.exportDir) ".."
              · simp only [rewriteAssetSrc, c1, c2, Bool.false_eq_true, if_false, o1, o2, o3,
                  if_pos c3, if_pos c4]
                rw [dget_dput]
                by_cases hk : relpathAbs (normpath (pathJoin dir (unquote src))) cfg.mapaDir = k
                · rw [hk] at o1
                  rw [o1] at h
                  exact absurd h (by simp)
                · rw [if_neg hk]; exact h
              · simp only [rewriteAssetSrc, c1, c2, Bool.false_eq_true, if_false, o1, o2, o3,
                  if_pos c3, if_neg c4]
                exact h
            · simp only [rewriteAssetSrc, c1, c2, Bool.false_eq_true, if_false, o1, o2, o3,
                if_neg c3]
              exact h
          · simp only [rewriteAssetSrc, c1, c2, Bool.false_eq_true, if_false, o1, o2, o3]
            exact h
        · simp only [rewriteAssetSrc, c1, c2, Bool.false_eq_true, if_false, o1, o2]
          exact h
      · simp only [rewriteAssetSrc, c1, c2, Bool.false_eq_true, if_false, o1]
        exact h

/-- C7.  The Reference Rewriter's out-of-tree asset extension is idempotent
and append-only: resolving the same source a second time returns exactly the
first result with the state unchanged (so nothing is copied twice), and no
call ever overwrites an `asset_map` entry that already exists. -/
theorem rewriteAssetSrc_idempotent_append_only (cfg : LinkCfg) (src dir : String) (st : FState) :
    rewriteAssetSrc cfg src dir (rewriteAssetSrc cfg src dir st).2
      = rewriteAssetSrc cfg src dir st ∧
    ∀ k v, dget st.assetMap k = some v →
      dget (rewriteAssetSrc cfg src dir st).2.assetMap k = some v :=
  ⟨rewriteAssetSrc_idem_aux cfg src dir st,
   fun k v h => rewriteAssetSrc_append_only cfg src dir st k v h⟩

/-- Witness for C7 at an out-of-tree resolution next to an existing entry. -/
theorem rewriteAssetSrc_idempotent_append_only_witness :
    dget (rewriteAssetSrc ⟨"/e/Mapa", "/e", "/out"⟩ "../X/banner.png" "/e/Mapa"
        ⟨[("a/logo.png", "/assets/logo.png")], ["/e/X/banner.png"], []⟩).2.assetMap
      "a/logo.png" = some "/assets/logo.png" :=
  (rewriteAssetSrc_idempotent_append_only ⟨"/e/Mapa", "/e", "/out"⟩ "../X/banner.png" "/e/Mapa"
      ⟨[("a/logo.png", "/assets/logo.png")], ["/e/X/banner.png"], []⟩).2
    "a/logo.png" "/assets/logo.png" (by decide)


theorem assetInert_spec (cfg : LinkCfg) (s dir : String) (st : FState)
    (h : assetInertB cfg s dir st = true) :
    rewriteAssetSrc cfg s dir st = (none, st) ∨ rewriteAssetSrc cfg s dir st = (some s, st) := by
  by_cases c1 : strStarts s "data:" = true
  · left; simp only [rewriteAssetSrc, c1, if_true]
  · simp only [Bool.not_eq_true] at c1
    by_cases c2 : (strStarts s "http://" || strStarts s "https://") = true
    · left; simp only [rewriteAssetSrc, c1, Bool.false_eq_true, if_false, c2, if_true]
    · simp only [Bool.not_eq_true, Bool.or_eq_false_iff] at c2
      simp only [assetInertB, c1, c2.1, c2.2, Bool.false_eq_true, Bool.false_or,
        Bool.or_eq_true, Bool.and_eq_true, beq_iff_eq, Bool.not_eq_true',
        decide_eq_false_iff_not] at h
      rcases o1 : dget st.assetMap
          (relpathAbs (normpath (pathJoin dir (unquote s))) cfg.mapaDir) with _ | v
      · rw [o1] at h
        rcases h with h | ⟨⟨_, hnorm⟩, hrest⟩
        · exact absurd h (by simp)
        · rcases o3 : fuzzyMatch st.assetMap (basenameS (unquote s)) with _ | v3
          · rw [o3] at hrest
            rcases hrest with hbad | ⟨_, hguard⟩
            · exact absurd hbad (by simp)
            · left
              by_cases c3 : strStarts (relpathAbs (normpath (pathJoin dir (unquote s)))
                  cfg.mapaDir) ".." = true ∧ normpath (pathJoin dir (unquote s)) ∈ st.diskFiles
              · rcases hguard with (hg | hg) | hg
                · exact absurd c3.1 (by rw [hg]; simp)
                · exact absurd c3.2 hg
                · simp only [rewriteAssetSrc, c1, c2.1, c2.2, Bool.false_eq_true, if_false,
                    Bool.or_self, o1, hnorm, o3, if_pos c3, if_neg (not_not_intro hg)]
              · simp only [rewriteAssetSrc, c1, c2.1, c2.2, Bool.false_eq_true, if_false,
                  Bool.or_self, o1, hnorm, o3, if_neg c3]
          · rw [o3] at hrest
            rcases hrest with hv3 | ⟨hbad, _⟩
            · right
              rw [hv3] at o3
              simp only [rewriteAssetSrc, c1, c2.1, c2.2, Bool.false_eq_true, if_false,
                Bool.or_self, o1, hnorm, o3]
            · exact absurd hbad (by simp)
      · rw [o1] at h
        rcases h with h | ⟨⟨hbad, _⟩, _⟩
        · right
          injection h with hv
          rw [hv] at o1
          simp only [rewriteAssetSrc, c1, c2.1, c2.2, Bool.false_eq_true, if_false,
            Bool.or_self, o1]
        · exact absurd hbad (by simp)


theorem hrefInert_spec (cfg : LinkCfg) (h0 dir : String) (slugM : SMap) (st : FState)
    (h : hrefInertB cfg h0 dir slugM st = true) :
    rewriteHref cfg h0 dir slugM st = (none, st) ∨
    rewriteHref cfg h0 dir slugM st = (some h0, st) := by
  by_cases c1 : (strStarts h0 "#" || strStarts h0 "javascript:") = true
  · left; simp only [rewriteHref, c1, if_true]
  · have c1' := c1
    simp only [Bool.not_eq_true, Bool.or_eq_false_iff] at c1'
    simp only [hrefInertB, c1'.1, c1'.2, Bool.false_eq_true, Bool.false_or] at h
    by_cases c2 : (strStarts (unquote h0) "http://" || strStarts (unquote h0) "https://") = true
    · rw [if_pos c2] at h
      simp only [Bool.and_eq_true, Bool.or_eq_true, Bool.and_eq_true, Bool.not_eq_true',
        beq_iff_eq] at h
      left
      rcases h with ⟨hbk, hrest⟩
      by_cases c3 : (strHas (unquote h0) "notion.so" || strHas (unquote h0) "notion.site") = true
      · have hbind : (extractNotionIdFromUrl (unquote h0)).bind (fun nid => dget slugM nid)
            = none := by
          rcases hrest with ⟨hn1, hn2⟩ | hb
          · rcases (Bool.or_eq_true _ _) ▸ c3 with hc | hc
            · rw [hn1] at hc; exact absurd hc (by simp)
            · rw [hn2] at hc; exact absurd hc (by simp)
          · exact hb
        simp only [rewriteHref, c1'.1, c1'.2, Bool.false_eq_true, Bool.or_self, if_false,
          if_pos c2, hbk, Bool.false_eq_true, if_false, c3, if_true, hbind]
      · simp only [rewriteHref, c1'.1, c1'.2, Bool.false_eq_true, Bool.or_self, if_false,
          if_pos c2, hbk, Bool.false_eq_true, if_false, c3]
    · rw [if_neg c2] at h
      by_cases c4 : (strEnds (unquote h0) ".html" || strHas (unquote h0) ".html#") = true
      · rw [if_pos c4] at h
        simp only [Bool.and_eq_true, beq_iff_eq] at h
        left
        simp only [rewriteHref, c1'.1, c1'.2, Bool.false_eq_true, Bool.or_self, if_false,
          if_neg c2, if_pos c4, h.1, h.2]
      · rw [if_neg c4] at h
        have hred : rewriteHref cfg h0 dir slugM st = rewriteAssetSrc cfg h0 dir st := by
          simp only [rewriteHref, c1'.1, c1'.2, Bool.false_eq_true, Bool.or_self, if_false,
            if_neg c2, if_neg c4]
        rw [hred]
        exact assetInert_spec cfg h0 dir st h

theorem rewriteRefList_fixed (f : String → FState → Option String × FState)
    (l : List String) (st : FState)
    (h : ∀ s ∈ l, f s st = (none, st) ∨ f s st = (some s, st)) :
    rewriteRefList f l st = (l, st) := by
  induction l with
  | nil => rfl
  | cons s rest ih =>
    have hrest := ih (fun x hx => h x (List.mem_cons_of_mem s hx))
    rcases h s (List.mem_cons_self s rest) with hf | hf
    · simp only [rewriteRefList, hf, hrest, applyOpt]
    · simp only [rewriteRefList, hf, hrest, applyOpt, ite_self]

theorem rewriteRefLL_fixed (f : String → FState → Option String × FState)
    (ll : List (List String)) (st : FState)
    (h : ∀ g ∈ ll, ∀ u ∈ g, f u st = (none, st) ∨ f u st = (some u, st)) :
    rewriteRefLL f ll st = (ll, st) := by
  induction ll with
  | nil => rfl
  | cons g rest ih =>
    have hg := rewriteRefList_fixed f g st (h g (List.mem_cons_self g rest))
    have hrest := ih (fun x hx => h x (List.mem_cons_of_mem g hx))
    simp only [rewriteRefLL, hg, hrest]

/-- C4 (amended).  A body is left completely unchanged by `rewrite_links`
provided none of its references re-matches a "needs resolution" pattern
(`hrefInertB`/`assetInertB`): fragment and script links, unresolvable
external or document links, and asset references whose lookups either miss
everywhere or return the reference itself.  Already-rewritten bodies satisfy
this except when an assigned `/assets/` name re-matches the filename-only
fuzzy lookup of a different asset (see the counterexample). -/
theorem rewriteLinks_inert_fixed_point (cfg : LinkCfg) (doc : SoupDoc) (path : String)
    (slugM : SMap) (st : FState)
    (ha : ∀ h ∈ doc.anchors, hrefInertB cfg h (dirnameS path) slugM st = true)
    (hi : ∀ s ∈ doc.imgs, assetInertB cfg s (dirnameS path) st = true)
    (hs : ∀ g ∈ doc.styleUrls, ∀ u ∈ g, assetInertB cfg u (dirnameS path) st = true) :
    rewriteLinks cfg doc path slugM st = (doc, st) := by
  have h1 : rewriteRefList (fun h t => rewriteHref cfg h (dirnameS path) slugM t)
      doc.anchors st = (doc.anchors, st) :=
    rewriteRefList_fixed _ _ _ (fun s hsm => hrefInert_spec cfg s _ slugM st (ha s hsm))
  have h2 : rewriteRefList (fun s t => rewriteAssetSrc cfg s (dirnameS path) t)
      doc.imgs st = (doc.imgs, st) :=
    rewriteRefList_fixed _ _ _ (fun s hsm => assetInert_spec cfg s _ st (hi s hsm))
  have h3 : rewriteRefLL (fun s t => rewriteAssetSrc cfg s (dirnameS path) t)
      doc.styleUrls st = (doc.styleUrls, st) :=
    rewriteRefLL_fixed _ _ _ (fun g hg u hu => assetInert_spec cfg u _ st (hs g hg u hu))
  simp only [rewriteLinks, h1, h2, h3]

/-- Witness for C4 (amended): a rewritten body with an inert page link,
fragment link, external link, image and style url is a fixed point. -/
theorem rewriteLinks_inert_fixed_point_witness :
    rewriteLinks ⟨"/e/m", "/e", "/out"⟩
      ⟨["#top", "/contenido/page/", "https://example.com/"],
       ["/assets/pic.png"], [["/assets/pic.png"]]⟩
      "/e/m/a/Doc.html" [("aaaaaaaaaaaaaaaaaaaaaaaaaaaaaaaa", "/contenido/page/")]
      ⟨[("a/pic.png", "/assets/pic.png")], [], []⟩
    = (⟨["#top", "/contenido/page/", "https://example.com/"],
        ["/assets/pic.png"], [["/assets/pic.png"]]⟩,
       ⟨[("a/pic.png", "/assets/pic.png")], [], []⟩) :=
  rewriteLinks_inert_fixed_point ⟨"/e/m", "/e", "/out"⟩
    ⟨["#top", "/contenido/page/", "https://example.com/"],
     ["/assets/pic.png"], [["/assets/pic.png"]]⟩
    "/e/m/a/Doc.html" [("aaaaaaaaaaaaaaaaaaaaaaaaaaaaaaaa", "/contenido/page/")]
    ⟨[("a/pic.png", "/assets/pic.png")], [], []⟩
    (by decide) (by decide) (by decide)

theorem splitCharL_ne_nil (c : Char) (l : List Char) : splitCharL c l ≠ [] := by
  cases l with
  | nil => simp [splitCharL]
  | cons x xs =>
    show splitCharL c (x :: xs) ≠ []
    rcases h : splitCharL c xs with _ | ⟨g, gs⟩
    · simp [splitCharL, h]
    · by_cases hx : x = c <;> simp [splitCharL, h, hx]

theorem splitCharL_append_cons (c : Char) (ys : List Char) :
    ∀ xs, splitCharL c (xs ++ c :: ys) = splitCharL c xs ++ splitCharL c ys := by
  intro xs
  induction xs with
  | nil =>
    rcases hy : splitCharL c ys with _ | ⟨g, gs⟩
    · exact absurd hy (splitCharL_ne_nil c ys)
    · simp only [List.nil_append]
      simp [splitCharL, hy]
  | cons x xs ih =>
    rcases hx : splitCharL c xs with _ | ⟨a, as⟩
    · exact absurd hx (splitCharL_ne_nil c xs)
    · show splitCharL c (x :: (xs ++ c :: ys)) = splitCharL c (x :: xs) ++ splitCharL c ys
      have hr : splitCharL c (xs ++ c :: ys) = a :: (as ++ splitCharL c ys) := by
        rw [ih, hx]; rfl
      by_cases hxc : x = c
      · simp [splitCharL, hr, hx, hxc]
      · simp [splitCharL, hr, hx, hxc]

theorem normStack_append_normal (c : List Char)
    (h1 : c ≠ []) (h2 : c ≠ ['.']) (h3 : c ≠ ['.', '.']) :
    ∀ (slashes : Nat) (cs stk : List (List Char)),
    normStack slashes stk (cs ++ [c]) = c :: normStack slashes stk cs := by
  intro slashes cs
  induction cs with
  | nil =>
    intro stk
    show normStack slashes stk [c] = c :: normStack slashes stk []
    simp only [normStack, if_neg (not_or.2 ⟨h1, h2⟩), if_pos h3]
  | cons d cs ih =>
    intro stk
    show normStack slashes stk (d :: (cs ++ [c])) = c :: normStack slashes stk (d :: cs)
    by_cases hd1 : d = [] ∨ d = ['.']
    · simp only [normStack, if_pos hd1]; exact ih stk
    · by_cases hd2 : d ≠ ['.', '.']
      · simp only [normStack, if_neg hd1, if_pos hd2]; exact ih _
      · push_neg at hd2
        subst hd2
        cases stk with
        | nil =>
          by_cases hs : slashes = 0
          · simp only [normStack, if_neg hd1, if_neg (not_not_intro rfl), if_pos hs]
            exact ih _
          · simp only [normStack, if_neg hd1, if_neg (not_not_intro rfl), if_neg hs]
            exact ih _
        | cons t ts =>
          by_cases ht : t = ['.', '.']
          · simp only [normStack, if_neg hd1, if_neg (not_not_intro rfl), if_pos ht]
            exact ih _
          · simp only [normStack, if_neg hd1, if_neg (not_not_intro rfl), if_neg ht]
            exact ih _

theorem basenameL_no_slash (l : List Char) (h : '/' ∉ l) : basenameL l = l := by
  show (l.reverse.takeWhile (fun c => c ≠ '/')).reverse = l
  have hself : l.reverse.takeWhile (fun c => c ≠ '/') = l.reverse := by
    apply List.takeWhile_eq_self_iff.2
    intro ch hc
    have hmem : ch ∈ l := List.mem_reverse.1 hc
    have hne : ch ≠ '/' := fun hcc => h (hcc ▸ hmem)
    simp [hne]
  rw [hself, List.reverse_reverse]

theorem basenameL_append_slash (a b : List Char) :
    basenameL (a ++ '/' :: b) = basenameL b := by
  unfold basenameL
  have hrev : (a ++ '/' :: b).reverse = b.reverse ++ '/' :: a.reverse := by
    rw [List.reverse_append, List.reverse_cons, List.append_assoc, List.singleton_append]
  rw [hrev, List.takeWhile_append]
  have hslash : List.takeWhile (fun ch => decide (ch ≠ '/')) ('/' :: a.reverse) = [] := by
    simp [List.takeWhile]
  split
  case isTrue h =>
    rw [hslash, List.append_nil]
    congr 1
    exact ((List.takeWhile_sublist _).eq_of_length h).symm
  case isFalse h => rfl

theorem joinCharL_append_singleton (sep : Char) (gs : List (List Char)) (x : List Char)
    (h : gs ≠ []) : joinCharL sep (gs ++ [x]) = joinCharL sep gs ++ sep :: x := by
  induction gs with
  | nil => exact absurd rfl h
  | cons g gs ih =>
    cases gs with
    | nil => simp [joinCharL]
    | cons g2 gs2 =>
      show joinCharL sep (g :: (g2 :: gs2 ++ [x]))
        = (g ++ sep :: joinCharL sep (g2 :: gs2)) ++ sep :: x
      rw [show joinCharL sep (g :: (g2 :: gs2 ++ [x]))
          = g ++ sep :: joinCharL sep (g2 :: gs2 ++ [x]) from by
        rcases gs2 with _ | ⟨g3, gs3⟩ <;> rfl]
      rw [ih (by simp)]
      simp

theorem basenameS_normpath (s : String) (hs : s ≠ "") (cs : List (List Char)) (X : List Char)
    (hsplit : splitCharL '/' s.data = cs ++ [X])
    (h1 : X ≠ []) (h2 : X ≠ ['.']) (h3 : X ≠ ['.', '.']) (h4 : '/' ∉ X) :
    basenameS (normpath s) = String.mk X := by
  simp only [normpath, if_neg hs, hsplit, normStack_append_normal X h1 h2 h3,
    List.reverse_cons]
  set slashes : Nat := if (strStarts s "//" && !(strStarts s "///")) = true then 2
    else if strStarts s "/" = true then 1 else 0 with hsl
  set S := (normStack slashes [] cs).reverse with hS
  have hout : List.replicate slashes '/' ++ joinCharL '/' (S ++ [X]) ≠ [] := by
    rcases S with _ | ⟨g, gs⟩
    · show List.replicate slashes '/' ++ joinCharL '/' [X] ≠ []
      show List.replicate slashes '/' ++ X ≠ []
      simp [h1]
    · rw [joinCharL_append_singleton '/' (g :: gs) X (by simp)]
      simp
  rw [if_neg hout]
  show String.mk (basenameL (List.replicate slashes '/' ++ joinCharL '/' (S ++ [X])))
    = String.mk X
  congr 1
  rcases S with _ | ⟨g, gs⟩
  · show basenameL (List.replicate slashes '/' ++ joinCharL '/' [X]) = X
    show basenameL (List.replicate slashes '/' ++ X) = X
    cases slashes with
    | zero => simpa using basenameL_no_slash X h4
    | succ k =>
      rw [List.replicate_succ', List.append_assoc, List.singleton_append,
        basenameL_append_slash]
      exact basenameL_no_slash X h4
  · rw [joinCharL_append_singleton '/' (g :: gs) X (by simp), ← List.append_assoc,
      basenameL_append_slash]
    exact basenameL_no_slash X h4

theorem str_ne_empty_of_data_cons (s : String) (a : List Char) (c : Char) (b : List Char)
    (h : s.data = a ++ c :: b) : s ≠ "" := by
  intro hcontra
  have := congrArg String.data hcontra
  rw [h] at this
  simp at this

theorem basename_join_concrete (dir : String) :
    basenameS (normpath (pathJoin dir
      "./Sub Folder/Some Page abcdef0123456789abcdef0123456789.html"))
      = "Some Page abcdef0123456789abcdef0123456789.html" := by
  have hps : strStarts "./Sub Folder/Some Page abcdef0123456789abcdef0123456789.html" "/"
      = false := by decide
  have hpdata : splitCharL '/'
      ("./Sub Folder/Some Page abcdef0123456789abcdef0123456789.html").data
      = [['.'], "Sub Folder".data, "Some Page abcdef0123456789abcdef0123456789.html".data] := by
    decide
  by_cases hd0 : dir = ""
  · subst hd0
    rw [show pathJoin "" "./Sub Folder/Some Page abcdef0123456789abcdef0123456789.html"
        = "./Sub Folder/Some Page abcdef0123456789abcdef0123456789.html" from by
      simp [pathJoin, hps]]
    decide
  · by_cases hde : strEnds dir "/" = true
    · -- dir ends with a slash: dir ++ p
      have hpref : (List.isPrefixOf ['/'] dir.data.reverse) = true := by
        have : strEnds dir "/" = true := hde
        simpa [strEnds] using this
      rcases (List.isPrefixOf_iff_prefix.1 hpref) with ⟨t, ht⟩
      have hdirdata : dir.data = t.reverse ++ ['/'] := by
        have h2 := congrArg List.reverse ht
        simp at h2
        exact h2.symm
      rw [show pathJoin dir "./Sub Folder/Some Page abcdef0123456789abcdef0123456789.html"
          = dir ++ "./Sub Folder/Some Page abcdef0123456789abcdef0123456789.html" from by
        simp [pathJoin, hps, hd0, hde]]
      apply basenameS_normpath _ ?hne
        (splitCharL '/' t.reverse ++ [['.'], "Sub Folder".data])
        ("Some Page abcdef0123456789abcdef0123456789.html".data)
        ?hsp (by decide) (by decide) (by decide) (by decide)
      case hne =>
        apply str_ne_empty_of_data_cons _ t.reverse '/'
          ("./Sub Folder/Some Page abcdef0123456789abcdef0123456789.html").data
        rw [String.data_append, hdirdata, List.append_assoc, List.singleton_append]
      case hsp =>
        rw [String.data_append, hdirdata, List.append_assoc, List.singleton_append,
          splitCharL_append_cons, hpdata]
        simp
    · -- general case: dir ++ "/" ++ p
      rw [show pathJoin dir "./Sub Folder/Some Page abcdef0123456789abcdef0123456789.html"
          = dir ++ "/" ++ "./Sub Folder/Some Page abcdef0123456789abcdef0123456789.html" from by
        simp [pathJoin, hps, hd0, hde]]
      apply basenameS_normpath _ ?hne2
        (splitCharL '/' dir.data ++ [['.'], "Sub Folder".data])
        ("Some Page abcdef0123456789abcdef0123456789.html".data)
        ?hsp2 (by decide) (by decide) (by decide) (by decide)
      case hne2 =>
        apply str_ne_empty_of_data_cons _ dir.data '/'
          ("./Sub Folder/Some Page abcdef0123456789abcdef0123456789.html").data
        rw [show dir ++ "/" ++ "./Sub Folder/Some Page abcdef0123456789abcdef0123456789.html"
            = dir ++ ("/" ++ "./Sub Folder/Some Page abcdef0123456789abcdef0123456789.html")
          from by rw [String.append_assoc]]
        rw [String.data_append, String.data_append]
        rfl
      case hsp2 =>
        rw [show dir ++ "/" ++ "./Sub Folder/Some Page abcdef0123456789abcdef0123456789.html"
            = dir ++ ("/" ++ "./Sub Folder/Some Page abcdef0123456789abcdef0123456789.html")
          from by rw [String.append_assoc]]
        rw [String.data_append, show ("/" ++
          "./Sub Folder/Some Page abcdef0123456789abcdef0123456789.html").data
            = '/' :: ("./Sub Folder/Some Page abcdef0123456789abcdef0123456789.html").data
          from rfl]
        rw [splitCharL_append_cons, hpdata]
        simp

/-- C6.  A relative href `./Sub%20Folder/Some%20Page%20<id>.html#note1` whose
32-hex id is mapped to `/contenido/some-page/` is rewritten by
`_rewrite_href` to exactly `/contenido/some-page/#note1` — the slug with the
original fragment preserved — from any source directory. -/
theorem rewriteHref_relative_anchor_scenario (cfg : LinkCfg) (sourceDir : String)
    (slugM : SMap) (st : FState)
    (hmap : dget slugM "abcdef0123456789abcdef0123456789" = some "/contenido/some-page/") :
    rewriteHref cfg "./Sub%20Folder/Some%20Page%20abcdef0123456789abcdef0123456789.html#note1"
      sourceDir slugM st = (some "/contenido/some-page/#note1", st) := by
  have hc1 : (strStarts
      "./Sub%20Folder/Some%20Page%20abcdef0123456789abcdef0123456789.html#note1" "#" ||
    strStarts "./Sub%20Folder/Some%20Page%20abcdef0123456789abcdef0123456789.html#note1"
      "javascript:") = false := by decide
  have huq : unquote "./Sub%20Folder/Some%20Page%20abcdef0123456789abcdef0123456789.html#note1"
      = "./Sub Folder/Some Page abcdef0123456789abcdef0123456789.html#note1" := by decide
  have hc2 : (strStarts
      "./Sub Folder/Some Page abcdef0123456789abcdef0123456789.html#note1" "http://" ||
    strStarts "./Sub Folder/Some Page abcdef0123456789abcdef0123456789.html#note1"
      "https://") = false := by decide
  have hc3 : (strEnds "./Sub Folder/Some Page abcdef0123456789abcdef0123456789.html#note1"
      ".html" ||
    strHas "./Sub Folder/Some Page abcdef0123456789abcdef0123456789.html#note1"
      ".html#") = true := by decide
  have hsplit : rsplitHash "./Sub Folder/Some Page abcdef0123456789abcdef0123456789.html#note1"
      = ("./Sub Folder/Some Page abcdef0123456789abcdef0123456789.html", "#note1") := by decide
  have hmatch : matchNotionFilename "Some Page abcdef0123456789abcdef0123456789.html"
      = some ("Some Page", "abcdef0123456789abcdef0123456789") := by decide
  simp only [rewriteHref, hc1, Bool.false_eq_true, if_false, huq, hc2, hc3, if_true, hsplit,
    basename_join_concrete sourceDir, hmatch, Option.bind, hrefIdLookup, hmap]
  rw [show ("/contenido/some-page/" ++ "#note1" : String) = "/contenido/some-page/#note1" from by
    decide]

/-- Witness for C6 at a concrete source directory and slug map. -/
theorem rewriteHref_relative_anchor_scenario_witness :
    rewriteHref ⟨"/e/m", "/e", "/out"⟩
      "./Sub%20Folder/Some%20Page%20abcdef0123456789abcdef0123456789.html#note1"
      "/e/m/Contenido"
      [("abcdef0123456789abcdef0123456789", "/contenido/some-page/")] ⟨[], [], []⟩
    = (some "/contenido/some-page/#note1", ⟨[], [], []⟩) :=
  rewriteHref_relative_anchor_scenario ⟨"/e/m", "/e", "/out"⟩ "/e/m/Contenido"
    [("abcdef0123456789abcdef0123456789", "/contenido/some-page/")] ⟨[], [], []⟩ (by decide)

theorem relKey_data_getLast (d f : String) (c : Char) (hf : f.data.getLast? = some c) :
    (relKey d f).data.getLast? = some c := by
  unfold relKey
  split
  · exact hf
  · have hfe : f.data ≠ [] := by
      intro h0
      rw [h0] at hf
      simp at hf
    rw [show (d ++ "/" ++ f).data = (d ++ "/").data ++ f.data from String.data_append _ _,
      List.getLast?_append_of_ne_nil _ hfe]
    exact hf

theorem append_dash_ffj (s : String) : s ++ "-" ++ "foto-final.jpg" = s ++ "-foto-final.jpg" := by
  apply String.ext
  rw [String.data_append, String.data_append, String.data_append, List.append_assoc]
  congr 1

/-- C8.  Asset collision resolved by parent-directory prefix: with
`Foto Final.JPG` walked before `foto final.jpg` (any directories, any
`MAPA_DIR`), `build_asset_map` assigns `/assets/foto-final.jpg` to the first
and `/assets/{parent-dir-slug}-foto-final.jpg` to the second, the parent
slug truncated to 30 characters — both stems slugify to `foto-final` and
both extensions lowercase to `.jpg`, and the prefixed name never re-enters
the counter loop because it is strictly longer than the colliding one. -/
theorem buildAssetMap_parent_prefix_collision (mapaDir dirA dirB : String) :
    buildAssetMap mapaDir [⟨dirA, "Foto Final.JPG"⟩, ⟨dirB, "foto final.jpg"⟩]
      = [(relKey dirA "Foto Final.JPG", "/assets/foto-final.jpg"),
         (relKey dirB "foto final.jpg",
          "/assets/" ++ slugifyM (parentName mapaDir dirB) 30 ++ "-foto-final.jpg")] := by
  have hkey : ¬ relKey dirA "Foto Final.JPG" = relKey dirB "foto final.jpg" := by
    intro he
    have h1 := relKey_data_getLast dirA "Foto Final.JPG" 'G' (by decide)
    have h2 := relKey_data_getLast dirB "foto final.jpg" 'g' (by decide)
    rw [he, h2] at h1
    simp at h1
  have hfresh : ¬ (slugifyM (parentName mapaDir dirB) 30 ++ "-" ++ "foto-final.jpg"
      ∈ (["foto-final.jpg"] : List String)) := by
    intro hmem
    rw [List.mem_singleton] at hmem
    have hlen := congrArg String.length hmem
    rw [String.length_append, String.length_append,
      show ("-" : String).length = 1 from rfl,
      show ("foto-final.jpg" : String).length = 14 from rfl] at hlen
    omega
  have hA : cleanAssetName "Foto Final.JPG" ++ ".jpg" = "foto-final.jpg" := by decide
  have hB : cleanAssetName "foto final.jpg" ++ ".jpg" = "foto-final.jpg" := by decide
  have hextA : asciiLower (splitextS "Foto Final.JPG").2 = ".jpg" := by decide
  have hextB : asciiLower (splitextS "foto final.jpg").2 = ".jpg" := by decide
  simp only [buildAssetMap, buildAssetMapGo, hA, hB, hextA, hextB,
    if_pos (show (".jpg" : String) ∈ MEDIA_EXTENSIONS from by decide),
    if_neg (show ¬ (("foto-final.jpg" : String) ∈ ([] : List String)) from by decide),
    if_pos (show ("foto-final.jpg" : String) ∈ (["foto-final.jpg"] : List String) from by decide),
    resolveDupName, if_neg hfresh, addSet, List.nil_append, dput, if_neg hkey]
  rw [append_dash_ffj, ← String.append_assoc,
    show ("/assets/" ++ "foto-final.jpg" : String) = "/assets/foto-final.jpg" from by decide]

end Trasladar
